import Mathlib

/-!
Shallow embedding of the YouTube-channel scraper (Apify actor) for
verification of its natural-language specification.  JS strings are
modelled as `List Char`, JS numbers as `ℚ` (with `Option ℚ` where `NaN`
can arise), fallible code as `Except`.
-/

namespace YT

/-! ## Compact-count parsing (`unformatNumbers`) -/

/-- Value of a digit run, most significant first (how `parseFloat` reads
an integer part). -/
def digitsVal (l : List Char) : ℕ := l.foldl (fun a c => 10 * a + (c.toNat - 48)) 0

/-- Model of JS `parseFloat` restricted to the alphabet that survives the
`NUMBER_EXTRACTION` cleaning and comma removal (digits and dots): longest
prefix `[0-9]*(\.[0-9]*)?`, `none` models `NaN` (no digit consumed). -/
def jsParseFloat (l : List Char) : Option ℚ :=
  let ip := l.takeWhile Char.isDigit
  let r := l.drop ip.length
  let fp := if r.head? = some '.' then r.tail.takeWhile Char.isDigit else []
  if ip.isEmpty && fp.isEmpty then none
  else some ((digitsVal ip : ℚ) + (digitsVal fp : ℚ) / (10 : ℚ) ^ fp.length)

/-- JS `Math.round`: nearest integer, ties towards positive infinity. -/
def jsRound (q : ℚ) : ℤ := ⌊q + 1 / 2⌋

/-- The character class `[mkbtq]` of `REGEX_PATTERNS.MULTIPLIER_EXTRACTION`
with the `/i` flag. -/
def isMultChar (c : Char) : Bool :=
  c ∈ ['m', 'M', 'k', 'K', 'b', 'B', 't', 'T', 'q', 'Q']

/-- The lookbehind class `(?<=[0-9 ])`. -/
def isNumOrSpace (c : Char) : Bool := c.isDigit || c = ' '

/-- First match of a lookbehind-guarded character-class regex
`/(?<=[0-9 ])[...]/`, scanning left to right; `cls` is the class. -/
def findFirstMult (cls : Char → Bool) : List Char → Option Char
  | a :: b :: rest =>
    if cls b && isNumOrSpace a then some b else findFirstMult cls (b :: rest)
  | _ => none

/-- First match of `/(?<=[0-9 ])[mkbtq]/i`. -/
def findMult : List Char → Option Char := findFirstMult isMultChar

/-- `NUMBER_MULTIPLIERS[match[0].toUpperCase()]` (src/src/constants.js):
`K/M/B/T/Q ↦ 1e3/1e6/1e9/1e12/1e15`, composed with ASCII upcasing of the
matched character. -/
def multOf (c : Char) : Option ℚ :=
  if c = 'k' || c = 'K' then some 1000
  else if c = 'm' || c = 'M' then some 1000000
  else if c = 'b' || c = 'B' then some 1000000000
  else if c = 't' || c = 'T' then some 1000000000000
  else if c = 'q' || c = 'Q' then some 1000000000000000
  else none

/-- Characters kept by `numStr.replace(REGEX_PATTERNS.NUMBER_EXTRACTION, '')`
(the regex removes `[^0-9,.]`). -/
def keptCh (c : Char) : Bool := c.isDigit || c = ',' || c = '.'

/-- `unformatNumbers` (src/unnamed/part_007, lines 337-357) on string
inputs: clean to `[0-9,.]`, `parseFloat` without commas, then apply the
first `[mkbtq]` multiplier found after a digit or space, rounding. -/
def unformatNumbers (numStr : List Char) : ℤ :=
  if numStr.isEmpty then 0
  else
    let cleanedStr := numStr.filter keptCh
    if cleanedStr.isEmpty then 0
    else
      match jsParseFloat (cleanedStr.filter (fun c => !(c = ','))) with
      | none => 0
      | some number =>
        match findMult numStr with
        | some mc =>
          match multOf mc with
          | some m => jsRound (number * m)
          | none => jsRound number
        | none => jsRound number

/-- A JavaScript value at the public interface of `unformatNumbers`. -/
inductive JSValue where
  | vNull
  | vUndefined
  | vStr (s : List Char)
  | vNum (q : Option ℚ)
  | vBool (b : Bool)
  | vObj
deriving DecidableEq

/-- `unformatNumbers` over arbitrary JS values: the guard
`if (!numStr || typeof numStr !== 'string') return 0;` sends every
non-string (and the empty string) to `0`. -/
def unformatNumbersJS : JSValue → ℤ
  | .vStr s => unformatNumbers s
  | _ => 0

/-- The character class `[mkb]` of the legacy multiplier regex with `/i`. -/
def isLegacyMultChar (c : Char) : Bool := c ∈ ['m', 'M', 'k', 'K', 'b', 'B']

/-- First match of the legacy multiplier regex `/(?<=[0-9 ])[mkb]/ig`
(src/unnamed/part_001). -/
def findMultLegacy : List Char → Option Char := findFirstMult isLegacyMultChar

/-- The legacy `switch (multiplier)` on the upcased matched character,
including its (unreachable) `T`/`Q` cases and the throwing `default`
branch.  `Option ℚ` propagates `NaN` through `Math.round`. -/
def legacyMultSwitch (c : Char) (number : Option ℚ) : Except (List Char) (Option ℚ) :=
  if c = 'k' || c = 'K' then .ok (number.map (fun q => (jsRound (q * 1000) : ℚ)))
  else if c = 'm' || c = 'M' then .ok (number.map (fun q => (jsRound (q * 1000000) : ℚ)))
  else if c = 'b' || c = 'B' then .ok (number.map (fun q => (jsRound (q * 1000000000) : ℚ)))
  else if c = 't' || c = 'T' then .ok (number.map (fun q => (jsRound (q * 1000000000000) : ℚ)))
  else if c = 'q' || c = 'Q' then .ok (number.map (fun q => (jsRound (q * 1000000000000000) : ℚ)))
  else .error ("Unhandled multiplier in getExpandedNumbers".toList)

/-- Legacy `unformatNumbers` (src/unnamed/part_001, lines 25-64): same
cleaning, but multiplier regex `[mkb]`, a `switch` that can throw, and the
bare (unrounded) number when no multiplier matches. -/
def legacyUnformatNumbers (numStr : List Char) : Except (List Char) (Option ℚ) :=
  let numberMatch := numStr.filter keptCh
  if !numberMatch.isEmpty then
    let number := jsParseFloat (numberMatch.filter (fun c => !(c = ',')))
    match findMultLegacy numStr with
    | some mc => legacyMultSwitch mc number
    | none => .ok number
  else .ok (some 0)

/-! ### Supporting lemmas for the compact-count parser -/

theorem takeWhile_eq_self_of_all {p : Char → Bool} :
    ∀ {a : List Char}, (∀ x ∈ a, p x = true) → a.takeWhile p = a := by
  intro a
  induction a with
  | nil => intro _; rfl
  | cons x t ih =>
    intro h
    rw [List.takeWhile_cons_of_pos (by simp [h x (by simp)])]
    rw [ih fun y hy => h y (by simp [hy])]

theorem takeWhile_append_stop {p : Char → Bool} {a : List Char} (x : Char) (r : List Char)
    (ha : ∀ y ∈ a, p y = true) (hx : p x = false) :
    (a ++ x :: r).takeWhile p = a := by
  induction a with
  | nil =>
    simp only [List.nil_append]
    exact List.takeWhile_cons_of_neg (by simp [hx])
  | cons y t ih =>
    rw [List.cons_append, List.takeWhile_cons_of_pos (by simp [ha y (by simp)])]
    rw [ih fun z hz => ha z (by simp [hz])]

theorem takeWhile_eq_nil_of_head {p : Char → Bool} {a : List Char}
    (h : ∀ x ∈ a.head?, p x = false) : a.takeWhile p = [] := by
  cases a with
  | nil => rfl
  | cons x t => exact List.takeWhile_cons_of_neg (by simp [h x rfl])

theorem mult_not_digit {c : Char} (h : isMultChar c = true) : c.isDigit = false := by
  simp only [isMultChar, List.mem_cons, decide_eq_true_eq, List.not_mem_nil, or_false] at h
  rcases h with h | h | h | h | h | h | h | h | h | h <;> subst h <;> decide

theorem mult_not_kept {c : Char} (h : isMultChar c = true) : keptCh c = false := by
  simp only [isMultChar, List.mem_cons, decide_eq_true_eq, List.not_mem_nil, or_false] at h
  rcases h with h | h | h | h | h | h | h | h | h | h <;> subst h <;> decide

theorem digit_not_mult {c : Char} (h : c.isDigit = true) : isMultChar c = false := by
  cases hm : isMultChar c
  · rfl
  · rw [mult_not_digit hm] at h; cases h

theorem digit_not_legacy_mult {c : Char} (h : c.isDigit = true) : isLegacyMultChar c = false := by
  have hh : isLegacyMultChar c = true → c.isDigit = false := by
    intro hm
    simp only [isLegacyMultChar, List.mem_cons, decide_eq_true_eq, List.not_mem_nil,
      or_false] at hm
    rcases hm with hm | hm | hm | hm | hm | hm <;> subst hm <;> decide
  cases hm : isLegacyMultChar c
  · rfl
  · rw [hh hm] at h; cases h

theorem jsParseFloat_digits {a : List Char} (hne : a ≠ [])
    (ha : ∀ x ∈ a, x.isDigit = true) :
    jsParseFloat a = some ((digitsVal a : ℚ)) := by
  unfold jsParseFloat
  rw [takeWhile_eq_self_of_all ha]
  simp only [List.drop_length]
  simp [List.isEmpty_iff, hne, digitsVal]

theorem jsParseFloat_digits_dot {a b : List Char} (hne : a ≠ [])
    (ha : ∀ x ∈ a, x.isDigit = true) (hb : ∀ x ∈ b, x.isDigit = true) :
    jsParseFloat (a ++ '.' :: b) =
      some ((digitsVal a : ℚ) + (digitsVal b : ℚ) / (10 : ℚ) ^ b.length) := by
  simp only [jsParseFloat]
  rw [takeWhile_append_stop '.' b ha (by decide)]
  rw [List.drop_left]
  simp only [List.head?_cons, List.tail_cons, if_pos rfl]
  rw [takeWhile_eq_self_of_all hb]
  simp [List.isEmpty_iff, hne]

theorem findFirstMult_nil (cls : Char → Bool) : findFirstMult cls [] = none := rfl

theorem findFirstMult_single (cls : Char → Bool) (a : Char) :
    findFirstMult cls [a] = none := rfl

theorem findFirstMult_cons_cons (cls : Char → Bool) (a b : Char) (rest : List Char) :
    findFirstMult cls (a :: b :: rest) =
      if cls b && isNumOrSpace a then some b else findFirstMult cls (b :: rest) := rfl

theorem findFirstMult_append_single {cls : Char → Bool} :
    ∀ (w : List Char) (c : Char), (∀ x ∈ w, cls x = false) →
    findFirstMult cls (w ++ [c]) =
      (if cls c = true ∧ (∃ d, w.getLast? = some d ∧ isNumOrSpace d = true)
       then some c else none) := by
  intro w
  induction w with
  | nil =>
    intro c _
    simp [findFirstMult_single]
  | cons a t ih =>
    intro c h
    cases t with
    | nil =>
      rw [List.singleton_append, findFirstMult_cons_cons, findFirstMult_single]
      by_cases hc : cls c = true
      · by_cases hn : isNumOrSpace a = true
        · rw [if_pos (by simp [hc, hn]), if_pos (by simp [hc, hn])]
        · rw [if_neg (by simp [Bool.not_eq_true] at hn ⊢; simp [hn])]
          rw [if_neg (by simp [hn])]
      · rw [if_neg (by simp [Bool.not_eq_true] at hc ⊢; simp [hc])]
        rw [if_neg (by simp [hc])]
    | cons b r =>
      have hb : cls b = false := h b (by simp)
      rw [List.cons_append, List.cons_append, findFirstMult_cons_cons]
      rw [if_neg (by simp [hb])]
      rw [← List.cons_append, ih c (fun x hx => h x (by simp [hx]))]
      rw [List.getLast?_cons_cons]

theorem findFirstMult_none_of_all {cls : Char → Bool} :
    ∀ (l : List Char), (∀ x ∈ l, cls x = false) → findFirstMult cls l = none := by
  intro l
  induction l with
  | nil => intro _; rfl
  | cons a t ih =>
    intro h
    cases t with
    | nil => rfl
    | cons b r =>
      rw [findFirstMult_cons_cons, if_neg (by simp [h b (by simp)])]
      exact ih fun x hx => h x (by simp [hx])

theorem filter_kept_of_digits {a : List Char} (ha : ∀ x ∈ a, x.isDigit = true) :
    a.filter keptCh = a :=
  List.filter_eq_self.mpr fun x hx => by simp [keptCh, ha x hx]

theorem filter_not_comma_of_digits {a : List Char} (ha : ∀ x ∈ a, x.isDigit = true) :
    a.filter (fun y => !(y = ',')) = a :=
  List.filter_eq_self.mpr fun x hx => by
    have hd := ha x hx
    by_cases hc : x = ','
    · subst hc; exact absurd hd (by decide)
    · simp [hc]

theorem getLast?_append_right (l₁ l₂ : List Char) (h : l₂ ≠ []) :
    (l₁ ++ l₂).getLast? = l₂.getLast? := by
  rw [← List.head?_reverse, ← List.head?_reverse, List.reverse_append]
  cases hcase : l₂.reverse with
  | nil => exact absurd (by simpa using hcase) h
  | cons y r => simp [hcase]

theorem jsParseFloat_dots {l : List Char} (h : ∀ x ∈ l, x = '.') :
    jsParseFloat l = none := by
  simp only [jsParseFloat]
  rw [takeWhile_eq_nil_of_head (by
    intro x hx
    cases l with
    | nil => cases hx
    | cons y t =>
      simp only [List.head?_cons, Option.mem_def, Option.some.injEq] at hx
      subst hx
      rw [h y (by simp)]
      decide)]
  simp only [List.length_nil, List.drop_zero]
  cases l with
  | nil => simp
  | cons y t =>
    have hy : y = '.' := h y (by simp)
    subst hy
    simp only [List.head?_cons, List.tail_cons, if_pos rfl]
    rw [takeWhile_eq_nil_of_head (by
      intro x hx
      cases t with
      | nil => cases hx
      | cons z r =>
        simp only [List.head?_cons, Option.mem_def, Option.some.injEq] at hx
        subst hx
        rw [h z (by simp)]
        decide)]
    simp

theorem jsRound_natCast (n : ℕ) : jsRound ((n : ℚ)) = (n : ℤ) := by
  rw [jsRound, Int.floor_eq_iff]
  constructor <;> push_cast <;> norm_num

theorem unformat_digits_mult (a : List Char) (c : Char) (m : ℚ) (hne : a ≠ [])
    (ha : ∀ x ∈ a, x.isDigit = true) (hc : isMultChar c = true) (hm : multOf c = some m) :
    unformatNumbers (a ++ [c]) = jsRound ((digitsVal a : ℚ) * m) := by
  have h1 : (a ++ [c]).filter keptCh = a := by
    rw [List.filter_append, filter_kept_of_digits ha]
    simp [mult_not_kept hc]
  have h3 : jsParseFloat a = some (digitsVal a) := jsParseFloat_digits hne ha
  have h4 : findMult (a ++ [c]) = some c := by
    simp only [findMult]
    rw [findFirstMult_append_single a c (fun x hx => digit_not_mult (ha x hx))]
    rw [if_pos]
    refine ⟨hc, a.getLast hne, List.getLast?_eq_getLast a hne, ?_⟩
    simp [isNumOrSpace, ha _ (List.getLast_mem hne)]
  simp [unformatNumbers, h1, filter_not_comma_of_digits ha, h3, h4, hm,
    List.isEmpty_iff, hne]

theorem unformat_digits_dot_mult (a b : List Char) (c : Char) (m : ℚ) (hne : a ≠ [])
    (hbne : b ≠ []) (ha : ∀ x ∈ a, x.isDigit = true) (hb : ∀ x ∈ b, x.isDigit = true)
    (hc : isMultChar c = true) (hm : multOf c = some m) :
    unformatNumbers (a ++ '.' :: b ++ [c]) =
      jsRound (((digitsVal a : ℚ) + (digitsVal b : ℚ) / (10 : ℚ) ^ b.length) * m) := by
  have hkd : ∀ x ∈ a ++ '.' :: b, keptCh x = true := by
    intro x hx
    rcases List.mem_append.mp hx with hx | hx
    · simp [keptCh, ha x hx]
    · rcases List.mem_cons.mp hx with hx | hx
      · subst hx; decide
      · simp [keptCh, hb x hx]
  have h1 : (a ++ '.' :: b ++ [c]).filter keptCh = a ++ '.' :: b := by
    rw [show a ++ '.' :: b ++ [c] = (a ++ '.' :: b) ++ [c] by simp]
    rw [List.filter_append, List.filter_eq_self.mpr hkd]
    simp [mult_not_kept hc]
  have h2 : (a ++ '.' :: b).filter (fun y => !(y = ',')) = a ++ '.' :: b := by
    refine List.filter_eq_self.mpr fun x hx => ?_
    have : keptCh x = true := hkd x hx
    by_cases hcm : x = ','
    · subst hcm
      rcases List.mem_append.mp hx with hx | hx
      · exact absurd (ha _ hx) (by decide)
      · rcases List.mem_cons.mp hx with hx | hx
        · cases hx
        · exact absurd (hb _ hx) (by decide)
    · simp [hcm]
  have h3 : jsParseFloat (a ++ '.' :: b) =
      some ((digitsVal a : ℚ) + (digitsVal b : ℚ) / (10 : ℚ) ^ b.length) :=
    jsParseFloat_digits_dot hne ha hb
  have h4 : findMult (a ++ '.' :: b ++ [c]) = some c := by
    simp only [findMult]
    rw [show a ++ '.' :: b ++ [c] = (a ++ '.' :: b) ++ [c] by simp]
    rw [findFirstMult_append_single (a ++ '.' :: b) c (by
      intro x hx
      rcases List.mem_append.mp hx with hx | hx
      · exact digit_not_mult (ha x hx)
      · rcases List.mem_cons.mp hx with hx | hx
        · subst hx; decide
        · exact digit_not_mult (hb x hx))]
    rw [if_pos]
    refine ⟨hc, b.getLast hbne, ?_, ?_⟩
    · rw [getLast?_append_right a ('.' :: b) (by simp)]
      rw [show ('.' :: b) = ['.'] ++ b from rfl]
      rw [getLast?_append_right ['.'] b hbne]
      exact List.getLast?_eq_getLast b hbne
    · simp [isNumOrSpace, hb _ (List.getLast_mem hbne)]
  simp only [unformatNumbers, h1]
  rw [if_neg (by simp), if_neg (by simp [List.isEmpty_iff]), h2, h3]
  simp only [h4, hm]

theorem unformat_digits_plain (a : List Char) (hne : a ≠ [])
    (ha : ∀ x ∈ a, x.isDigit = true) :
    unformatNumbers a = jsRound ((digitsVal a : ℚ)) := by
  have h4 : findMult a = none := by
    simp only [findMult]
    exact findFirstMult_none_of_all a fun x hx => digit_not_mult (ha x hx)
  simp only [unformatNumbers, filter_kept_of_digits ha]
  rw [if_neg (by simp [List.isEmpty_iff, hne]), if_neg (by simp [List.isEmpty_iff, hne])]
  rw [filter_not_comma_of_digits ha, jsParseFloat_digits hne ha]
  simp only [h4]

theorem unformat_digits_dot_plain (a b : List Char) (hne : a ≠ [])
    (ha : ∀ x ∈ a, x.isDigit = true) (hb : ∀ x ∈ b, x.isDigit = true) :
    unformatNumbers (a ++ '.' :: b) =
      jsRound ((digitsVal a : ℚ) + (digitsVal b : ℚ) / (10 : ℚ) ^ b.length) := by
  have hkd : ∀ x ∈ a ++ '.' :: b, keptCh x = true := by
    intro x hx
    rcases List.mem_append.mp hx with hx | hx
    · simp [keptCh, ha x hx]
    · rcases List.mem_cons.mp hx with hx | hx
      · subst hx; decide
      · simp [keptCh, hb x hx]
  have h2 : (a ++ '.' :: b).filter (fun y => !(y = ',')) = a ++ '.' :: b := by
    refine List.filter_eq_self.mpr fun x hx => ?_
    by_cases hcm : x = ','
    · subst hcm
      have := hkd _ hx
      rcases List.mem_append.mp hx with hx | hx
      · exact absurd (ha _ hx) (by decide)
      · rcases List.mem_cons.mp hx with hx | hx
        · cases hx
        · exact absurd (hb _ hx) (by decide)
    · simp [hcm]
  have h4 : findMult (a ++ '.' :: b) = none := by
    simp only [findMult]
    refine findFirstMult_none_of_all _ fun x hx => ?_
    rcases List.mem_append.mp hx with hx | hx
    · exact digit_not_mult (ha x hx)
    · rcases List.mem_cons.mp hx with hx | hx
      · subst hx; decide
      · exact digit_not_mult (hb x hx)
  simp only [unformatNumbers, List.filter_eq_self.mpr hkd]
  rw [if_neg (by simp), if_neg (by simp [List.isEmpty_iff]), h2,
    jsParseFloat_digits_dot hne ha hb]
  simp only [h4]

theorem unformat_digits_nonmult (a : List Char) (c : Char) (hne : a ≠ [])
    (ha : ∀ x ∈ a, x.isDigit = true) (hc : isMultChar c = false) (hk : keptCh c = false) :
    unformatNumbers (a ++ [c]) = (digitsVal a : ℤ) := by
  have h1 : (a ++ [c]).filter keptCh = a := by
    rw [List.filter_append, filter_kept_of_digits ha]
    simp [hk]
  have h4 : findMult (a ++ [c]) = none := by
    simp only [findMult]
    rw [findFirstMult_append_single a c (fun x hx => digit_not_mult (ha x hx))]
    rw [if_neg (by simp [hc])]
  simp only [unformatNumbers, h1]
  rw [if_neg (by simp), if_neg (by simp [List.isEmpty_iff, hne])]
  rw [filter_not_comma_of_digits ha, jsParseFloat_digits hne ha]
  simp only [h4]
  exact jsRound_natCast _

theorem legacy_mult_subset {c : Char} (h : isLegacyMultChar c = true) :
    isMultChar c = true := by
  simp only [isLegacyMultChar, List.mem_cons, decide_eq_true_eq, List.not_mem_nil,
    or_false] at h
  rcases h with h | h | h | h | h | h <;> subst h <;> decide

theorem legacyUnformat_digits_nonmult (a : List Char) (c : Char) (hne : a ≠ [])
    (ha : ∀ x ∈ a, x.isDigit = true) (hc : isMultChar c = false) (hk : keptCh c = false) :
    legacyUnformatNumbers (a ++ [c]) = .ok (some ((digitsVal a : ℚ))) := by
  have h1 : (a ++ [c]).filter keptCh = a := by
    rw [List.filter_append, filter_kept_of_digits ha]
    simp [hk]
  have h4 : findMultLegacy (a ++ [c]) = none := by
    simp only [findMultLegacy]
    rw [findFirstMult_append_single a c
      (fun x hx => digit_not_legacy_mult (ha x hx))]
    rw [if_neg (by
      rintro ⟨hcc, -⟩
      rw [legacy_mult_subset hcc] at hc
      cases hc)]
  simp only [legacyUnformatNumbers, h1]
  rw [if_pos (by simp [List.isEmpty_iff, hne])]
  rw [filter_not_comma_of_digits ha, jsParseFloat_digits hne ha]
  simp only [h4]

theorem unformat_no_digit (s : List Char) (h : ∀ x ∈ s, x.isDigit = false) :
    unformatNumbers s = 0 := by
  by_cases hs : s = []
  · subst hs; rfl
  · simp only [unformatNumbers]
    rw [if_neg (by simp [List.isEmpty_iff, hs])]
    by_cases hcl : s.filter keptCh = []
    · rw [hcl]
      simp
    · rw [if_neg (by simp [List.isEmpty_iff, hcl])]
      have hdots : ∀ x ∈ (s.filter keptCh).filter (fun y => !(y = ',')), x = '.' := by
        intro x hx
        rw [List.mem_filter] at hx
        obtain ⟨hx1, hx2⟩ := hx
        rw [List.mem_filter] at hx1
        obtain ⟨hxs, hk⟩ := hx1
        have hd := h x hxs
        simp only [keptCh, hd, Bool.false_or, Bool.or_eq_true, decide_eq_true_eq] at hk
        rcases hk with hk | hk
        · subst hk; simp at hx2
        · exact hk
      rw [jsParseFloat_dots hdots]

/-! ## Claim theorems for the compact-count parser -/

/-- C1: for every input of the form `<number><optional multiplier letter
K, M, B, T, or Q>` (case-insensitive, the letter immediately preceded by a
digit), `unformatNumbers` returns `round(number × multiplier)` with
multipliers `10^3/10^6/10^9/10^12/10^15`; `"1.2M" = 1200000`,
`"850K" = 850000`, and any string containing no digit yields `0`. -/
theorem claim_C1_unformatNumbers :
    (∀ (a : List Char) (c : Char) (m : ℚ), a ≠ [] → (∀ x ∈ a, x.isDigit = true) →
      isMultChar c = true → multOf c = some m →
      unformatNumbers (a ++ [c]) = jsRound ((digitsVal a : ℚ) * m)) ∧
    (∀ (a b : List Char) (c : Char) (m : ℚ), a ≠ [] → b ≠ [] →
      (∀ x ∈ a, x.isDigit = true) → (∀ x ∈ b, x.isDigit = true) →
      isMultChar c = true → multOf c = some m →
      unformatNumbers (a ++ '.' :: b ++ [c]) =
        jsRound (((digitsVal a : ℚ) + (digitsVal b : ℚ) / (10 : ℚ) ^ b.length) * m)) ∧
    (∀ (a : List Char), a ≠ [] → (∀ x ∈ a, x.isDigit = true) →
      unformatNumbers a = jsRound ((digitsVal a : ℚ))) ∧
    (∀ (a b : List Char), a ≠ [] → b ≠ [] →
      (∀ x ∈ a, x.isDigit = true) → (∀ x ∈ b, x.isDigit = true) →
      unformatNumbers (a ++ '.' :: b) =
        jsRound ((digitsVal a : ℚ) + (digitsVal b : ℚ) / (10 : ℚ) ^ b.length)) ∧
    multOf 'k' = some 1000 ∧ multOf 'K' = some 1000 ∧
    multOf 'm' = some 1000000 ∧ multOf 'M' = some 1000000 ∧
    multOf 'b' = some 1000000000 ∧ multOf 'B' = some 1000000000 ∧
    multOf 't' = some 1000000000000 ∧ multOf 'T' = some 1000000000000 ∧
    multOf 'q' = some 1000000000000000 ∧ multOf 'Q' = some 1000000000000000 ∧
    unformatNumbers ("1.2M".toList) = 1200000 ∧
    unformatNumbers ("850K".toList) = 850000 ∧
    unformatNumbers ("".toList) = 0 ∧
    (∀ s : List Char, (∀ x ∈ s, x.isDigit = false) → unformatNumbers s = 0) := by
  refine ⟨unformat_digits_mult, unformat_digits_dot_mult, unformat_digits_plain,
    fun a b hne _ ha hb => unformat_digits_dot_plain a b hne ha hb, rfl, rfl, rfl, rfl, rfl, rfl, rfl, rfl, rfl, rfl,
    ?_, ?_, rfl, unformat_no_digit⟩
  · simp [unformatNumbers, jsParseFloat, digitsVal, keptCh, findMult, findFirstMult,
      multOf, isMultChar, isNumOrSpace, jsRound] <;> norm_num
  · simp [unformatNumbers, jsParseFloat, digitsVal, keptCh, findMult, findFirstMult,
      multOf, isMultChar, isNumOrSpace, jsRound] <;> norm_num

/-- Witness for C1: instantiates the first conjunct at `"850" ++ "K"`. -/
theorem claim_C1_witness :
    ((['8', '5', '0'] : List Char) ≠ [] ∧
      (∀ x ∈ (['8', '5', '0'] : List Char), x.isDigit = true) ∧
      isMultChar 'K' = true ∧ multOf 'K' = some 1000) ∧
    unformatNumbers (['8', '5', '0'] ++ ['K']) =
      jsRound ((digitsVal ['8', '5', '0'] : ℚ) * 1000) :=
  ⟨⟨by decide, by decide, by decide, rfl⟩,
    claim_C1_unformatNumbers.1 ['8', '5', '0'] 'K' 1000 (by decide) (by decide)
      (by decide) rfl⟩

/-- C2 counterexample: on `"3Z"` neither parser throws.  The current
parser returns `3` and the legacy parser returns `Except.ok` (its
`Unhandled multiplier` throw is unreachable because the multiplier regex
matches only `[mkb]`), refuting the claim that an unknown trailing
multiplier letter is a hard error. -/
theorem claim_C2_counterexample :
    unformatNumbers ("3Z".toList) = 3 ∧
    legacyUnformatNumbers ("3Z".toList) = Except.ok (some 3) ∧
    (∀ e, legacyUnformatNumbers ("3Z".toList) ≠ Except.error e) := by
  refine ⟨?_, ?_, ?_⟩
  · simp [unformatNumbers, jsParseFloat, digitsVal, keptCh, findMult, findFirstMult,
      multOf, isMultChar, isNumOrSpace, jsRound] <;> norm_num
  · simp [legacyUnformatNumbers, jsParseFloat, digitsVal, keptCh, findMultLegacy,
      findFirstMult, legacyMultSwitch, isLegacyMultChar, isNumOrSpace, jsRound] <;>
      norm_num
  · intro e he
    have h2 : legacyUnformatNumbers ("3Z".toList) = Except.ok (some 3) := by
      simp [legacyUnformatNumbers, jsParseFloat, digitsVal, keptCh, findMultLegacy,
        findFirstMult, legacyMultSwitch, isLegacyMultChar, isNumOrSpace, jsRound] <;>
        norm_num
    rw [h2] at he
    cases he

/-- C2 amended: a trailing letter outside the recognised multiplier class
is silently ignored, never an error: the current parser returns
`round(number)` and the legacy parser returns `ok` with the bare number
(the legacy `switch` default that throws `Unhandled multiplier` is
unreachable since the regex only matches `[mkb]`). -/
theorem claim_C2_amended (a : List Char) (c : Char) (hne : a ≠ [])
    (ha : ∀ x ∈ a, x.isDigit = true) (hc : isMultChar c = false)
    (hk : keptCh c = false) :
    unformatNumbers (a ++ [c]) = (digitsVal a : ℤ) ∧
    legacyUnformatNumbers (a ++ [c]) = Except.ok (some ((digitsVal a : ℚ))) :=
  ⟨unformat_digits_nonmult a c hne ha hc hk,
    legacyUnformat_digits_nonmult a c hne ha hc hk⟩

/-- Witness for the amended C2 at `"3" ++ "Z"`. -/
theorem claim_C2_witness :
    ((['3'] : List Char) ≠ [] ∧ (∀ x ∈ (['3'] : List Char), x.isDigit = true) ∧
      isMultChar 'Z' = false ∧ keptCh 'Z' = false) ∧
    unformatNumbers (['3'] ++ ['Z']) = (digitsVal ['3'] : ℤ) ∧
    legacyUnformatNumbers (['3'] ++ ['Z']) = Except.ok (some ((digitsVal ['3'] : ℚ))) :=
  ⟨⟨by decide, by decide, by decide, by decide⟩,
    claim_C2_amended ['3'] 'Z' (by decide) (by decide) (by decide) (by decide)⟩

/-- C10: `unformatNumbers` is total over arbitrary JS values at its public
interface: every value that is not a string (in particular `null` and
`undefined`) yields `0`; totality of the Lean function models the absence
of any throwing path. -/
theorem claim_C10_unformat_total :
    unformatNumbersJS JSValue.vNull = 0 ∧
    unformatNumbersJS JSValue.vUndefined = 0 ∧
    (∀ v : JSValue, (∀ s, v ≠ JSValue.vStr s) → unformatNumbersJS v = 0) := by
  refine ⟨rfl, rfl, fun v h => ?_⟩
  cases v with
  | vStr s => exact absurd rfl (h s)
  | vNull => rfl
  | vUndefined => rfl
  | vNum q => rfl
  | vBool b => rfl
  | vObj => rfl

/-- Witness for C10 at the non-string value `vObj`. -/
theorem claim_C10_witness : unformatNumbersJS JSValue.vObj = 0 :=
  claim_C10_unformat_total.2.2 JSValue.vObj fun s h => JSValue.noConfusion h

/-! ## Error classification and retry policy (src/src/retryHandler.js) -/

/-- Model of JS `String.prototype.includes`. -/
def jsIncludes (pat s : List Char) : Bool := s.tails.any fun t => pat.isPrefixOf t

/-- ASCII model of JS `toLowerCase` (all pattern literals are ASCII). -/
def jsToLower (c : Char) : Char :=
  if 'A' ≤ c && c ≤ 'Z' then Char.ofNat (c.toNat + 32) else c

/-- The message substrings tested by `classifyError`. -/
def patCaptcha : List Char := "captcha".toList

def patConsent : List Char := "consent".toList

def patTimeout : List Char := "timeout".toList

def patNavTimeout : List Char := "navigation timeout".toList

def patNet : List Char := "net::".toList

def patNetwork : List Char := "network".toList

def patConnection : List Char := "connection".toList

def patTooMany : List Char := "too many requests".toList

def patRateLimit : List Char := "rate limit".toList

/-- The `ERROR_TYPES` constants. -/
inductive ErrorType where
  | RATE_LIMIT
  | TIMEOUT
  | NETWORK
  | CAPTCHA
  | NOT_FOUND
  | CONSENT
  | TEMPORARY
  | PERMANENT
deriving DecidableEq

/-- `classifyError` (src/src/retryHandler.js, lines 72-106).  `message` is
`error.message` (`none` models an absent message, `|| ''` makes it empty),
`status` is `response?.status?.()` (`none` models a missing response,
`|| 0` makes it `0`). -/
def classifyError (message : Option (List Char)) (status : Option ℕ) : ErrorType :=
  let m := (message.getD []).map jsToLower
  let statusCode := status.getD 0
  if statusCode = 429 then .RATE_LIMIT
  else if statusCode = 404 then .NOT_FOUND
  else if 500 ≤ statusCode then .TEMPORARY
  else if jsIncludes patCaptcha m then .CAPTCHA
  else if jsIncludes patConsent m then .CONSENT
  else if jsIncludes patTimeout m || jsIncludes patNavTimeout m
    then .TIMEOUT
  else if jsIncludes patNet m || jsIncludes patNetwork m ||
      jsIncludes patConnection m then .NETWORK
  else if jsIncludes patTooMany m || jsIncludes patRateLimit m
    then .RATE_LIMIT
  else .TEMPORARY

/-- First-match-wins evaluation of an ordered rule list with a default. -/
def firstMatch : List (Bool × ErrorType) → ErrorType → ErrorType
  | [], d => d
  | (cond, cat) :: rest, d => if cond then cat else firstMatch rest d

/-- The classification exactly as the claim words it (ordered precedence
list; the `network` rule mentions only `network`/`connection`). -/
def classifyErrorClaim (message : Option (List Char)) (status : Option ℕ) : ErrorType :=
  let m := (message.getD []).map jsToLower
  let st := status.getD 0
  firstMatch
    [(decide (st = 429), .RATE_LIMIT),
     (decide (st = 404), .NOT_FOUND),
     (decide (500 ≤ st), .TEMPORARY),
     (jsIncludes patCaptcha m, .CAPTCHA),
     (jsIncludes patConsent m, .CONSENT),
     (jsIncludes patTimeout m || jsIncludes patNavTimeout m,
       .TIMEOUT),
     (jsIncludes patNetwork m || jsIncludes patConnection m, .NETWORK),
     (jsIncludes patTooMany m || jsIncludes patRateLimit m,
       .RATE_LIMIT)]
    .TEMPORARY

/-- The claim amended minimally: the `network` rule additionally matches
messages containing the Chromium error prefix `net::`. -/
def classifyErrorClaimAmended (message : Option (List Char)) (status : Option ℕ) :
    ErrorType :=
  let m := (message.getD []).map jsToLower
  let st := status.getD 0
  firstMatch
    [(decide (st = 429), .RATE_LIMIT),
     (decide (st = 404), .NOT_FOUND),
     (decide (500 ≤ st), .TEMPORARY),
     (jsIncludes patCaptcha m, .CAPTCHA),
     (jsIncludes patConsent m, .CONSENT),
     (jsIncludes patTimeout m || jsIncludes patNavTimeout m,
       .TIMEOUT),
     (jsIncludes patNet m || jsIncludes patNetwork m ||
       jsIncludes patConnection m, .NETWORK),
     (jsIncludes patTooMany m || jsIncludes patRateLimit m,
       .RATE_LIMIT)]
    .TEMPORARY

/-- C3 counterexample: a message containing only the Chromium prefix
`net::` (no `network`/`connection` and no status) is classified `NETWORK`
by the code, while the claim's precedence list sends it to the default
`TEMPORARY`. -/
theorem claim_C3_counterexample :
    classifyError (some ("net::err_failed".toList)) none = ErrorType.NETWORK ∧
    classifyErrorClaim (some ("net::err_failed".toList)) none = ErrorType.TEMPORARY ∧
    ErrorType.NETWORK ≠ ErrorType.TEMPORARY := by
  refine ⟨?_, ?_, by decide⟩
  · decide
  · decide

/-- C3 amended: `classifyError` implements exactly the claim's precedence
list with first match winning, once the network rule also covers messages
containing `net::`; in particular a status-500 error whose message mentions
captcha is classified `TEMPORARY`, not `CAPTCHA`. -/
theorem claim_C3_classifyError :
    (∀ (message : Option (List Char)) (status : Option ℕ),
      classifyError message status = classifyErrorClaimAmended message status) ∧
    classifyError (some ("captcha detected".toList)) (some 500) = ErrorType.TEMPORARY ∧
    (∀ (message : Option (List Char)), classifyError message (some 429) =
      ErrorType.RATE_LIMIT) ∧
    (∀ (message : Option (List Char)), classifyError message (some 404) =
      ErrorType.NOT_FOUND) ∧
    (∀ (message : Option (List Char)) (st : ℕ), 500 ≤ st →
      classifyError message (some st) = ErrorType.TEMPORARY) := by
  refine ⟨?_, by decide, ?_, ?_, ?_⟩
  · intro message status
    simp only [classifyError, classifyErrorClaimAmended, firstMatch]
    by_cases h1 : status.getD 0 = 429
    · simp [h1]
    · by_cases h2 : status.getD 0 = 404
      · simp [h1, h2]
      · by_cases h3 : 500 ≤ status.getD 0
        · simp [h1, h2, h3]
        · by_cases h4 : jsIncludes patCaptcha ((message.getD []).map jsToLower) = true
          · simp [h1, h2, h3, h4]
          · by_cases h5 :
                jsIncludes patConsent ((message.getD []).map jsToLower) = true
            · simp [h1, h2, h3, h4, h5]
            · by_cases h6 :
                  (jsIncludes patTimeout ((message.getD []).map jsToLower) ||
                    jsIncludes patNavTimeout ((message.getD []).map jsToLower)) = true
              · simp only [Bool.or_eq_true] at h6
                simp [h1, h2, h3, h4, h5, h6]
              · simp only [Bool.or_eq_true, not_or] at h6
                by_cases h7 :
                    (jsIncludes patNet ((message.getD []).map jsToLower) ||
                      jsIncludes patNetwork ((message.getD []).map jsToLower) ||
                      jsIncludes patConnection ((message.getD []).map jsToLower)) = true
                · simp only [Bool.or_eq_true] at h7
                  simp [h1, h2, h3, h4, h5, h6.1, h6.2, h7]
                · simp only [Bool.or_eq_true, not_or] at h7
                  simp [h1, h2, h3, h4, h5, h6.1, h6.2, h7.1.1, h7.1.2, h7.2]
  · intro message
    simp [classifyError]
  · intro message
    simp [classifyError]
  · intro message st hst
    have h1 : st ≠ 429 := by omega
    have h2 : st ≠ 404 := by omega
    simp [classifyError, h1, h2, hst]

/-- Witness for C3: instantiates the status-500 conjunct at `503`. -/
theorem claim_C3_witness :
    500 ≤ 503 ∧ classifyError none (some 503) = ErrorType.TEMPORARY :=
  ⟨by norm_num, claim_C3_classifyError.2.2.2.2 none 503 (by norm_num)⟩

/-- One entry of `RETRY_CONFIG`. -/
structure RetryConfig where
  maxRetries : ℕ
  initialDelay : ℚ
  maxDelay : ℚ
  backoffFactor : ℚ

/-- `RETRY_CONFIG` (src/src/retryHandler.js, lines 21-64); `PERMANENT` has
no entry, modelling the `!config` case of `shouldRetry`. -/
def RETRY_CONFIG : ErrorType → Option RetryConfig
  | .RATE_LIMIT => some ⟨5, 5000, 60000, 2⟩
  | .TIMEOUT => some ⟨3, 2000, 10000, 3 / 2⟩
  | .NETWORK => some ⟨3, 1000, 5000, 3 / 2⟩
  | .CAPTCHA => some ⟨0, 0, 0, 0⟩
  | .NOT_FOUND => some ⟨0, 0, 0, 0⟩
  | .CONSENT => some ⟨1, 1000, 1000, 1⟩
  | .TEMPORARY => some ⟨2, 3000, 10000, 2⟩
  | .PERMANENT => none

/-- `calculateRetryDelay` (lines 114-123): exponential backoff capped at
`maxDelay`, plus up to 30% positive jitter; `rand` models `Math.random()`
(a value in `[0,1)`), `Math.floor` is the final floor. -/
def calculateRetryDelay (attempt : ℕ) (config : RetryConfig) (rand : ℚ) : ℤ :=
  let delay := min (config.initialDelay * config.backoffFactor ^ attempt) config.maxDelay
  let jitter := rand * (3 / 10) * delay
  ⌊delay + jitter⌋

/-- The object returned by `shouldRetry`; absent JS fields are `none`. -/
structure RetryDecision where
  retry : Bool
  errorType : ErrorType
  reason : Option (List Char)
  delay : Option ℤ
  attempt : Option ℕ
  maxRetries : Option ℕ

/-- `shouldRetry` (lines 132-153): classify, look up the config, refuse
when there is none or the attempt count is exhausted, otherwise return the
computed delay and incremented attempt. -/
def shouldRetry (message : Option (List Char)) (status : Option ℕ) (attempt : ℕ)
    (rand : ℚ) : RetryDecision :=
  let errorType := classifyError message status
  match RETRY_CONFIG errorType with
  | none => ⟨false, errorType, some ("No retry config".toList), none, none, none⟩
  | some config =>
    if config.maxRetries ≤ attempt then
      ⟨false, errorType, some ("Max retries reached".toList), none, none, none⟩
    else
      ⟨true, errorType, none, some (calculateRetryDelay attempt config rand),
        some (attempt + 1), some config.maxRetries⟩

/-- C4: a 429 response is retried as `RATE_LIMIT` with 5 max retries and a
first delay in `[5000, 6500)` ms (5s base plus up to 30% jitter, below the
60s cap); a 404 response is never retried, at any attempt number. -/
theorem claim_C4_retry_policy (r : ℚ) (h0 : 0 ≤ r) (h1 : r < 1) :
    (∀ (message : Option (List Char)),
      (shouldRetry message (some 429) 0 r).retry = true ∧
      (shouldRetry message (some 429) 0 r).errorType = ErrorType.RATE_LIMIT ∧
      (shouldRetry message (some 429) 0 r).maxRetries = some 5 ∧
      (∃ d : ℤ, (shouldRetry message (some 429) 0 r).delay = some d ∧
        5000 ≤ d ∧ d < 6500)) ∧
    (∀ (message : Option (List Char)) (attempt : ℕ),
      (shouldRetry message (some 404) attempt r).retry = false) := by
  constructor
  · intro message
    have hcl : classifyError message (some 429) = ErrorType.RATE_LIMIT := by
      simp [classifyError]
    have hdec : shouldRetry message (some 429) 0 r =
        ⟨true, ErrorType.RATE_LIMIT, none,
          some (calculateRetryDelay 0 ⟨5, 5000, 60000, 2⟩ r), some 1, some 5⟩ := by
      simp [shouldRetry, hcl, RETRY_CONFIG]
    refine ⟨by rw [hdec], by rw [hdec], by rw [hdec],
      calculateRetryDelay 0 ⟨5, 5000, 60000, 2⟩ r, by rw [hdec], ?_, ?_⟩
    · show (5000 : ℤ) ≤ ⌊min ((5000 : ℚ) * 2 ^ (0 : ℕ)) 60000 +
        r * (3 / 10) * min ((5000 : ℚ) * 2 ^ (0 : ℕ)) 60000⌋
      rw [show min ((5000 : ℚ) * 2 ^ (0 : ℕ)) 60000 = 5000 by norm_num]
      rw [Int.le_floor]
      push_cast
      nlinarith
    · show ⌊min ((5000 : ℚ) * 2 ^ (0 : ℕ)) 60000 +
        r * (3 / 10) * min ((5000 : ℚ) * 2 ^ (0 : ℕ)) 60000⌋ < (6500 : ℤ)
      rw [show min ((5000 : ℚ) * 2 ^ (0 : ℕ)) 60000 = 5000 by norm_num]
      rw [Int.floor_lt]
      push_cast
      nlinarith
  · intro message attempt
    have hcl : classifyError message (some 404) = ErrorType.NOT_FOUND := by
      simp [classifyError]
    simp [shouldRetry, hcl, RETRY_CONFIG]

/-- Witness for C4 at `r = 1/2`, 404, attempt 3. -/
theorem claim_C4_witness :
    (0 ≤ (1 / 2 : ℚ) ∧ (1 / 2 : ℚ) < 1) ∧
    (shouldRetry none (some 404) 3 (1 / 2)).retry = false :=
  ⟨⟨by norm_num, by norm_num⟩,
    (claim_C4_retry_policy (1 / 2) (by norm_num) (by norm_num)).2 none 3⟩

/-! ## Adaptive rate limiter (src/unnamed/part_008) -/

/-- One entry of `requestHistory`. -/
structure ReqRecord where
  timestamp : ℕ
  success : Bool
  responseTime : ℚ
  rateLimited : Bool

/-- The `metrics` object. -/
structure RLMetrics where
  totalRequests : ℕ
  successfulRequests : ℕ
  rateLimitHits : ℕ
  averageResponseTime : ℚ
  currentSuccessRate : ℚ

/-- The mutable state of `AdaptiveRateLimiter` (without
`lastRequestTime`, which only `waitForNextRequest` reads). -/
structure AdaptiveRateLimiter where
  minDelay : ℚ
  maxDelay : ℚ
  targetSuccessRate : ℚ
  windowSize : ℕ
  adaptationRate : ℚ
  currentDelay : ℚ
  requestHistory : List ReqRecord
  metrics : RLMetrics

/-- The `options` argument of the constructor. -/
structure RLOptions where
  minDelay : Option ℚ := none
  maxDelay : Option ℚ := none
  targetSuccessRate : Option ℚ := none
  windowSize : Option ℕ := none
  adaptationRate : Option ℚ := none

/-- JS `x || default` for an optional numeric option (`0` is falsy). -/
def jsOrQ (x : Option ℚ) (d : ℚ) : ℚ :=
  match x with
  | some v => if v = 0 then d else v
  | none => d

/-- JS `x || default` for an optional natural-number option. -/
def jsOrN (x : Option ℕ) (d : ℕ) : ℕ :=
  match x with
  | some v => if v = 0 then d else v
  | none => d

/-- The constructor (lines 9-28): defaults 1000/10000/0.95/100/0.1, and
`currentDelay` initialised to `minDelay`. -/
def AdaptiveRateLimiter.init (o : RLOptions) : AdaptiveRateLimiter :=
  let minD := jsOrQ o.minDelay 1000
  { minDelay := minD
    maxDelay := jsOrQ o.maxDelay 10000
    targetSuccessRate := jsOrQ o.targetSuccessRate (95 / 100)
    windowSize := jsOrN o.windowSize 100
    adaptationRate := jsOrQ o.adaptationRate (1 / 10)
    currentDelay := minD
    requestHistory := []
    metrics := ⟨0, 0, 0, 0, 1⟩ }

/-- The first `if/else` chain of `adaptDelay` (lines 79-96): the value
assigned to `this.currentDelay` before the response-time adjustment. -/
def adaptStep1 (st : AdaptiveRateLimiter) (rateLimited : Bool) : ℚ :=
  if rateLimited then min (st.currentDelay * 2) st.maxDelay
  else if st.metrics.currentSuccessRate < st.targetSuccessRate then
    min (st.currentDelay * (1 + st.adaptationRate)) st.maxDelay
  else if st.targetSuccessRate ≤ st.metrics.currentSuccessRate ∧
      st.minDelay < st.currentDelay then
    max (st.currentDelay * (1 - st.adaptationRate * (1 / 2))) st.minDelay
  else st.currentDelay

/-- `adaptDelay` (lines 79-102): the chain above followed by the
slow-response adjustment (`× 1.1`, clamped to `maxDelay`). -/
def AdaptiveRateLimiter.adaptDelay (st : AdaptiveRateLimiter) (rateLimited : Bool) :
    AdaptiveRateLimiter :=
  let d1 := adaptStep1 st rateLimited
  let d2 := if 5000 < st.metrics.averageResponseTime then min (d1 * (11 / 10)) st.maxDelay
    else d1
  { st with currentDelay := d2 }

/-- `recordRequest` (lines 36-73): update counters, push the record, trim
the window, recompute the success rate over the last 20 records and the
average response time over records with truthy `responseTime`, then adapt
the delay.  `now` models `Date.now()`. -/
def AdaptiveRateLimiter.recordRequest (st : AdaptiveRateLimiter) (success : Bool)
    (responseTime : ℚ) (rateLimited : Bool) (now : ℕ) : AdaptiveRateLimiter :=
  let metrics1 : RLMetrics :=
    { st.metrics with
      totalRequests := st.metrics.totalRequests + 1
      successfulRequests := st.metrics.successfulRequests + (if success then 1 else 0)
      rateLimitHits := st.metrics.rateLimitHits + (if rateLimited then 1 else 0) }
  let hist1 := st.requestHistory ++ [⟨now, success, responseTime, rateLimited⟩]
  let hist2 := if st.windowSize < hist1.length then hist1.tail else hist1
  let recent := hist2.drop (hist2.length - 20)
  let recentSuccesses := (recent.filter fun r => r.success).length
  let rate := (recentSuccesses : ℚ) / (recent.length : ℚ)
  let responseTimes : List ℚ := (hist2.filter fun r => !(r.responseTime = 0)).map
    fun r => r.responseTime
  let avg := if 0 < responseTimes.length then
      responseTimes.foldl (fun a b => a + b) 0 / (responseTimes.length : ℚ)
    else metrics1.averageResponseTime
  let metrics2 : RLMetrics :=
    { metrics1 with currentSuccessRate := rate, averageResponseTime := avg }
  AdaptiveRateLimiter.adaptDelay
    { st with requestHistory := hist2, metrics := metrics2 } rateLimited

/-- Folding `recordRequest` over a list of
`(success, responseTime, rateLimited, now)` outcomes. -/
def runRequests (st : AdaptiveRateLimiter) : List (Bool × ℚ × Bool × ℕ) →
    AdaptiveRateLimiter
  | [] => st
  | e :: rest => runRequests (st.recordRequest e.1 e.2.1 e.2.2.1 e.2.2.2) rest

theorem adaptStep1_bounds (st : AdaptiveRateLimiter) (rl : Bool)
    (h0 : 0 ≤ st.minDelay) (h1 : st.minDelay ≤ st.maxDelay)
    (h2 : 0 ≤ st.adaptationRate) (hlo : st.minDelay ≤ st.currentDelay)
    (hhi : st.currentDelay ≤ st.maxDelay) :
    st.minDelay ≤ adaptStep1 st rl ∧ adaptStep1 st rl ≤ st.maxDelay := by
  have hd0 : 0 ≤ st.currentDelay := le_trans h0 hlo
  unfold adaptStep1
  split_ifs with hA hB hC
  · exact ⟨le_min (by nlinarith) h1, min_le_right _ _⟩
  · exact ⟨le_min (by nlinarith) h1, min_le_right _ _⟩
  · exact ⟨le_max_right _ _, max_le (by nlinarith) h1⟩
  · exact ⟨hlo, hhi⟩

theorem adaptDelay_bounds (st : AdaptiveRateLimiter) (rl : Bool)
    (h0 : 0 ≤ st.minDelay) (h1 : st.minDelay ≤ st.maxDelay)
    (h2 : 0 ≤ st.adaptationRate) (hlo : st.minDelay ≤ st.currentDelay)
    (hhi : st.currentDelay ≤ st.maxDelay) :
    st.minDelay ≤ (st.adaptDelay rl).currentDelay ∧
    (st.adaptDelay rl).currentDelay ≤ st.maxDelay := by
  obtain ⟨hs1, hs2⟩ := adaptStep1_bounds st rl h0 h1 h2 hlo hhi
  have hs0 : 0 ≤ adaptStep1 st rl := le_trans h0 hs1
  have hshow : (st.adaptDelay rl).currentDelay =
      (if 5000 < st.metrics.averageResponseTime then
        min (adaptStep1 st rl * (11 / 10)) st.maxDelay else adaptStep1 st rl) := rfl
  rw [hshow]
  split_ifs with hA
  · exact ⟨le_min (by nlinarith) h1, min_le_right _ _⟩
  · exact ⟨hs1, hs2⟩

theorem recordRequest_bounds (st : AdaptiveRateLimiter) (success : Bool)
    (responseTime : ℚ) (rateLimited : Bool) (now : ℕ)
    (h0 : 0 ≤ st.minDelay) (h1 : st.minDelay ≤ st.maxDelay)
    (h2 : 0 ≤ st.adaptationRate) (hlo : st.minDelay ≤ st.currentDelay)
    (hhi : st.currentDelay ≤ st.maxDelay) :
    st.minDelay ≤ (st.recordRequest success responseTime rateLimited now).currentDelay ∧
    (st.recordRequest success responseTime rateLimited now).currentDelay ≤
      st.maxDelay :=
  adaptDelay_bounds _ rateLimited h0 h1 h2 hlo hhi

theorem runRequests_bounds (lo hi rate : ℚ) (h0 : 0 ≤ lo) (h1 : lo ≤ hi)
    (h2 : 0 ≤ rate) :
    ∀ (seq : List (Bool × ℚ × Bool × ℕ)) (st : AdaptiveRateLimiter),
      st.minDelay = lo → st.maxDelay = hi → st.adaptationRate = rate →
      lo ≤ st.currentDelay → st.currentDelay ≤ hi →
      lo ≤ (runRequests st seq).currentDelay ∧ (runRequests st seq).currentDelay ≤ hi := by
  intro seq
  induction seq with
  | nil => exact fun st _ _ _ hlo hhi => ⟨hlo, hhi⟩
  | cons e rest ih =>
    intro st hmin hmax hrate hlo hhi
    have hb := recordRequest_bounds st e.1 e.2.1 e.2.2.1 e.2.2.2
      (hmin ▸ h0) (by rw [hmin, hmax]; exact h1) (hrate ▸ h2)
      (hmin ▸ hlo) (hmax ▸ hhi)
    exact ih (st.recordRequest e.1 e.2.1 e.2.2.1 e.2.2.2) hmin hmax hrate
      (hmin ▸ hb.1) (hmax ▸ hb.2)

/-- C6: the current delay starts at the configured minimum and, for every
sequence of recorded outcomes, stays inside the configured
`[minDelay, maxDelay]` bounds (assuming a sane configuration:
`0 ≤ minDelay ≤ maxDelay` and a nonnegative adaptation rate, as the
defaults are). -/
theorem claim_C6_delay_invariant :
    (∀ o : RLOptions, (AdaptiveRateLimiter.init o).currentDelay =
      (AdaptiveRateLimiter.init o).minDelay) ∧
    (∀ (o : RLOptions) (seq : List (Bool × ℚ × Bool × ℕ)),
      0 ≤ (AdaptiveRateLimiter.init o).minDelay →
      (AdaptiveRateLimiter.init o).minDelay ≤ (AdaptiveRateLimiter.init o).maxDelay →
      0 ≤ (AdaptiveRateLimiter.init o).adaptationRate →
      (AdaptiveRateLimiter.init o).minDelay ≤
        (runRequests (AdaptiveRateLimiter.init o) seq).currentDelay ∧
      (runRequests (AdaptiveRateLimiter.init o) seq).currentDelay ≤
        (AdaptiveRateLimiter.init o).maxDelay) := by
  constructor
  · intro o; rfl
  · intro o seq h0 h1 h2
    exact runRequests_bounds _ _ _ h0 h1 h2 seq _ rfl rfl rfl (le_refl _) h1

/-- Witness for C6: the default configuration and one successful request. -/
theorem claim_C6_witness :
    (0 ≤ (AdaptiveRateLimiter.init {}).minDelay ∧
      (AdaptiveRateLimiter.init {}).minDelay ≤ (AdaptiveRateLimiter.init {}).maxDelay ∧
      0 ≤ (AdaptiveRateLimiter.init {}).adaptationRate) ∧
    (AdaptiveRateLimiter.init {}).minDelay ≤
      (runRequests (AdaptiveRateLimiter.init {}) [(true, 100, false, 0)]).currentDelay ∧
    (runRequests (AdaptiveRateLimiter.init {}) [(true, 100, false, 0)]).currentDelay ≤
      (AdaptiveRateLimiter.init {}).maxDelay := by
  refine ⟨⟨?_, ?_, ?_⟩, ?_⟩
  · norm_num [AdaptiveRateLimiter.init, jsOrQ]
  · norm_num [AdaptiveRateLimiter.init, jsOrQ]
  · norm_num [AdaptiveRateLimiter.init, jsOrQ]
  · exact claim_C6_delay_invariant.2 {} [(true, 100, false, 0)]
      (by norm_num [AdaptiveRateLimiter.init, jsOrQ])
      (by norm_num [AdaptiveRateLimiter.init, jsOrQ])
      (by norm_num [AdaptiveRateLimiter.init, jsOrQ])

theorem rlTrace1 : (AdaptiveRateLimiter.init {}).recordRequest false 0 true 0 =
    ⟨1000, 10000, 95 / 100, 100, 1 / 10, 2000, [⟨0, false, 0, true⟩],
      ⟨1, 0, 1, 0, 0⟩⟩ := by
  norm_num [AdaptiveRateLimiter.init, AdaptiveRateLimiter.recordRequest,
    AdaptiveRateLimiter.adaptDelay, adaptStep1, jsOrQ, jsOrN]

theorem rlTrace2 : (AdaptiveRateLimiter.recordRequest
    ⟨1000, 10000, 95 / 100, 100, 1 / 10, 2000, [⟨0, false, 0, true⟩], ⟨1, 0, 1, 0, 0⟩⟩
    false 0 true 0) =
    ⟨1000, 10000, 95 / 100, 100, 1 / 10, 4000,
      [⟨0, false, 0, true⟩, ⟨0, false, 0, true⟩], ⟨2, 0, 2, 0, 0⟩⟩ := by
  norm_num [AdaptiveRateLimiter.recordRequest, AdaptiveRateLimiter.adaptDelay,
    adaptStep1]

theorem rlTrace3 : (AdaptiveRateLimiter.recordRequest
    ⟨1000, 10000, 95 / 100, 100, 1 / 10, 4000,
      [⟨0, false, 0, true⟩, ⟨0, false, 0, true⟩], ⟨2, 0, 2, 0, 0⟩⟩
    false 0 true 0) =
    ⟨1000, 10000, 95 / 100, 100, 1 / 10, 8000,
      [⟨0, false, 0, true⟩, ⟨0, false, 0, true⟩, ⟨0, false, 0, true⟩],
      ⟨3, 0, 3, 0, 0⟩⟩ := by
  norm_num [AdaptiveRateLimiter.recordRequest, AdaptiveRateLimiter.adaptDelay,
    adaptStep1]

theorem rlTrace4 : (AdaptiveRateLimiter.recordRequest
    ⟨1000, 10000, 95 / 100, 100, 1 / 10, 8000,
      [⟨0, false, 0, true⟩, ⟨0, false, 0, true⟩, ⟨0, false, 0, true⟩],
      ⟨3, 0, 3, 0, 0⟩⟩
    false 0 true 0) =
    ⟨1000, 10000, 95 / 100, 100, 1 / 10, 10000,
      [⟨0, false, 0, true⟩, ⟨0, false, 0, true⟩, ⟨0, false, 0, true⟩,
        ⟨0, false, 0, true⟩],
      ⟨4, 0, 4, 0, 0⟩⟩ := by
  norm_num [AdaptiveRateLimiter.recordRequest, AdaptiveRateLimiter.adaptDelay,
    adaptStep1]

/-- C5 counterexample: from the default configuration (current delay
1000 ms, maximum 10000 ms), three consecutive rate-limited outcomes
double the delay to 2000, 4000 and finally 8000 ms — strictly below the
configured maximum, which the claim says is reached. -/
theorem claim_C5_counterexample :
    (runRequests (AdaptiveRateLimiter.init {})
      [(false, 0, true, 0), (false, 0, true, 0), (false, 0, true, 0)]).currentDelay =
      8000 ∧
    (AdaptiveRateLimiter.init {}).maxDelay = 10000 ∧
    (runRequests (AdaptiveRateLimiter.init {})
      [(false, 0, true, 0), (false, 0, true, 0), (false, 0, true, 0)]).currentDelay ≠
      (AdaptiveRateLimiter.init {}).maxDelay := by
  have e : runRequests (AdaptiveRateLimiter.init {})
      [(false, 0, true, 0), (false, 0, true, 0), (false, 0, true, 0)] =
      ⟨1000, 10000, 95 / 100, 100, 1 / 10, 8000,
        [⟨0, false, 0, true⟩, ⟨0, false, 0, true⟩, ⟨0, false, 0, true⟩],
        ⟨3, 0, 3, 0, 0⟩⟩ := by
    simp only [runRequests]
    rw [rlTrace1, rlTrace2, rlTrace3]
  rw [e]
  refine ⟨rfl, by norm_num [AdaptiveRateLimiter.init, jsOrQ], ?_⟩
  norm_num [AdaptiveRateLimiter.init, jsOrQ]

/-- C5 amended: each rate-limited outcome doubles the current delay,
clamped to the maximum, so from 1000 ms three rate-limited outcomes give
2000, 4000 and 8000 ms — monotonically non-decreasing but still below the
10000 ms default maximum; a fourth rate-limited outcome reaches the
maximum. -/
theorem claim_C5_amended :
    ((AdaptiveRateLimiter.init {}).currentDelay = 1000 ∧
      ((AdaptiveRateLimiter.init {}).recordRequest false 0 true 0).currentDelay =
        2000 ∧
      (((AdaptiveRateLimiter.init {}).recordRequest false 0 true 0).recordRequest
        false 0 true 0).currentDelay = 4000 ∧
      ((((AdaptiveRateLimiter.init {}).recordRequest false 0 true 0).recordRequest
        false 0 true 0).recordRequest false 0 true 0).currentDelay = 8000 ∧
      (((((AdaptiveRateLimiter.init {}).recordRequest false 0 true 0).recordRequest
        false 0 true 0).recordRequest false 0 true 0).recordRequest
        false 0 true 0).currentDelay = 10000) ∧
    (AdaptiveRateLimiter.init {}).maxDelay = 10000 ∧
    (1000 : ℚ) ≤ 2000 ∧ (2000 : ℚ) ≤ 4000 ∧ (4000 : ℚ) ≤ 8000 ∧
    (8000 : ℚ) ≤ 10000 := by
  rw [rlTrace1, rlTrace2, rlTrace3, rlTrace4]
  refine ⟨⟨rfl, rfl, rfl, rfl, rfl⟩, by norm_num [AdaptiveRateLimiter.init, jsOrQ],
    by norm_num, by norm_num, by norm_num, by norm_num⟩

/-! ## Channel-URL validation and canonicalization (src/unnamed/part_006) -/

/-- ASCII whitespace trimmed by JS `String.prototype.trim`. -/
def jsIsSpace (c : Char) : Bool :=
  c = ' ' || c = '\t' || c = '\n' || c = '\r' || c = Char.ofNat 11 || c = Char.ofNat 12

/-- JS `trim`: drop whitespace from both ends. -/
def jsTrim (s : List Char) : List Char :=
  ((s.dropWhile jsIsSpace).reverse.dropWhile jsIsSpace).reverse

/-- JS `String.prototype.replace` with a string pattern: replace the first
occurrence only. -/
def replaceFirst (pat rep : List Char) : List Char → List Char
  | [] => if pat.isPrefixOf [] then rep else []
  | c :: t =>
    if pat.isPrefixOf (c :: t) then rep ++ (c :: t).drop pat.length
    else c :: replaceFirst pat rep t

/-- `url.replace(/\/+$/, '')`: drop every trailing slash. -/
def stripTrailingSlashes (s : List Char) : List Char :=
  (s.reverse.dropWhile fun c => c = '/').reverse

def litHttp : List Char := "http".toList

def litHttpSlash : List Char := "http://".toList

def litHttpsSlash : List Char := "https://".toList

def litYtPrefix : List Char := "https://www.youtube.com/".toList

def litYtDomain : List Char := "youtube.com".toList

/-- Step 1 of `normalizeChannelUrl`: `// Handle @username format`. -/
def atStep (u : List Char) : List Char :=
  if u.head? = some '@' && !(jsIncludes litYtDomain u) then litYtPrefix ++ u else u

/-- Step 2: `// Ensure HTTPS` (`replace` fires only when the string
starts with `http://`). -/
def httpUpgradeStep (u : List Char) : List Char :=
  if litHttpSlash.isPrefixOf u then replaceFirst litHttpSlash litHttpsSlash u else u

/-- Step 3: `// Ensure URL has protocol`. -/
def protoStep (u : List Char) : List Char :=
  if litHttp.isPrefixOf u then u else litHttpsSlash ++ u

/-- `normalizeChannelUrl` (src/unnamed/part_006, lines 47-69): trim,
expand a bare `@handle`, upgrade `http://` to `https://`, prepend a
protocol when missing, drop trailing slashes — the four sequential
reassignments of `normalized`. -/
def normalizeChannelUrl (url : List Char) : List Char :=
  stripTrailingSlashes (protoStep (httpUpgradeStep (atStep (jsTrim url))))

/-- Case-insensitive literal matcher: each pattern entry is the
lower/upper pair of one character; returns the rest of the input. -/
def ciPrefix : List (Char × Char) → List Char → Option (List Char)
  | [], s => some s
  | _ :: _, [] => none
  | (lo, up) :: ps, c :: cs => if c = lo || c = up then ciPrefix ps cs else none

/-- The class `[\w-]`. -/
def isWordDash (c : Char) : Bool :=
  ('a' ≤ c && c ≤ 'z') || ('A' ≤ c && c ≤ 'Z') || ('0' ≤ c && c ≤ '9') ||
    c = '_' || c = '-'

/-- `[\w-]+\/?$`: a nonempty word-dash run with an optional final slash. -/
def tailWordOk (s : List Char) : Bool :=
  let s2 := if s.getLast? = some '/' then s.dropLast else s
  !s2.isEmpty && s2.all isWordDash

def ciHttp : List (Char × Char) := [('h', 'H'), ('t', 'T'), ('t', 'T'), ('p', 'P')]

def ciSColon : List (Char × Char) := [('s', 'S'), (':', ':'), ('/', '/'), ('/', '/')]

def ciColon : List (Char × Char) := [(':', ':'), ('/', '/'), ('/', '/')]

def ciWww : List (Char × Char) := [('w', 'W'), ('w', 'W'), ('w', 'W'), ('.', '.')]

def ciYtSlash : List (Char × Char) := [('y', 'Y'), ('o', 'O'), ('u', 'U'), ('t', 'T'), ('u', 'U'), ('b', 'B'), ('e', 'E'), ('.', '.'), ('c', 'C'), ('o', 'O'), ('m', 'M'), ('/', '/')]

def ciAt : List (Char × Char) := [('@', '@')]

def ciChannelSlash : List (Char × Char) := [('c', 'C'), ('h', 'H'), ('a', 'A'), ('n', 'N'), ('n', 'N'), ('e', 'E'), ('l', 'L'), ('/', '/')]

def ciCSlash : List (Char × Char) := [('c', 'C'), ('/', '/')]

def ciUserSlash : List (Char × Char) := [('u', 'U'), ('s', 'S'), ('e', 'E'), ('r', 'R'), ('/', '/')]

/-- `https?://` (case-insensitive, greedy on the optional `s`). -/
def matchProtocol (s : List Char) : Option (List Char) :=
  match ciPrefix ciHttp s with
  | none => none
  | some r1 =>
    match ciPrefix ciSColon r1 with
    | some r2 => some r2
    | none => ciPrefix ciColon r1

/-- `(www\.)?youtube\.com/` (case-insensitive). -/
def matchHost (s : List Char) : Option (List Char) :=
  let s1 := (ciPrefix ciWww s).getD s
  ciPrefix ciYtSlash s1

/-- One of the five `YOUTUBE_URL_PATTERNS` of `validateChannelUrl`
(src/unnamed/part_006, lines 9-15): the four full URL shapes
`https?://(www.)?youtube.com/(@|channel/|c/|user/)[\w-]+/?` and the bare
`@handle` shorthand, all case-insensitive. -/
def validChannelUrlShape (s : List Char) : Bool :=
  (match matchProtocol s with
   | none => false
   | some r =>
     match matchHost r with
     | none => false
     | some rest =>
       (match ciPrefix ciAt rest with
        | some t => tailWordOk t
        | none => false) ||
       (match ciPrefix ciChannelSlash rest with
        | some t => tailWordOk t
        | none => false) ||
       (match ciPrefix ciCSlash rest with
        | some t => tailWordOk t
        | none => false) ||
       (match ciPrefix ciUserSlash rest with
        | some t => tailWordOk t
        | none => false)) ||
  (s.head? = some '@' && !s.tail.isEmpty && s.tail.all isWordDash)

theorem stripTrailingSlashes_eq_rdropWhile (s : List Char) :
    stripTrailingSlashes s = s.rdropWhile (fun c => c = '/') := rfl

theorem stripTrailingSlashes_pre (s : List Char) : stripTrailingSlashes s <+: s := by
  rw [stripTrailingSlashes_eq_rdropWhile]
  exact List.rdropWhile_prefix _ _

theorem stripTrailingSlashes_idem (s : List Char) :
    stripTrailingSlashes (stripTrailingSlashes s) = stripTrailingSlashes s := by
  simp only [stripTrailingSlashes_eq_rdropWhile]
  exact List.rdropWhile_idempotent _ _

theorem stripTrailingSlashes_append (a t : List Char) (ch : Char)
    (hlast : a.getLast? = some ch) (hch : ¬ch = '/') :
    stripTrailingSlashes (a ++ t) = a ++ stripTrailingSlashes t := by
  simp only [stripTrailingSlashes_eq_rdropWhile]
  induction t using List.reverseRecOn with
  | nil =>
    simp only [List.append_nil, List.rdropWhile_nil]
    rw [List.rdropWhile_eq_self_iff]
    intro hl hp
    have h1 : a.getLast hl = ch := by
      have h2 := List.getLast?_eq_getLast a hl
      rw [h2] at hlast
      exact Option.some.inj hlast
    simp only [decide_eq_true_eq] at hp
    exact hch (h1 ▸ hp)
  | append_singleton t x ih =>
    by_cases hx : x = '/'
    · rw [← List.append_assoc, List.rdropWhile_concat_pos _ _ _ (by simp [hx]),
        List.rdropWhile_concat_pos _ _ _ (by simp [hx]), ih]
    · rw [← List.append_assoc, List.rdropWhile_concat_neg _ _ _ (by simp [hx]),
        List.rdropWhile_concat_neg _ _ _ (by simp [hx]), List.append_assoc]

theorem dropWhile_eq_self_of_head {p : Char → Bool} {l : List Char}
    (h : ∀ x ∈ l.head?, p x = false) : l.dropWhile p = l := by
  cases l with
  | nil => rfl
  | cons x t => simp [List.dropWhile_cons, h x rfl]

theorem jsTrim_eq_self {l : List Char} (h : ∀ x ∈ l, jsIsSpace x = false) :
    jsTrim l = l := by
  unfold jsTrim
  rw [dropWhile_eq_self_of_head fun x hx => h x (List.mem_of_mem_head? hx)]
  rw [dropWhile_eq_self_of_head fun x hx => h x (by
    have hm := List.mem_of_mem_head? hx
    rw [List.mem_reverse] at hm
    exact hm)]
  exact List.reverse_reverse l

theorem jsTrim_mem {l : List Char} {x : Char} (hx : x ∈ jsTrim l) : x ∈ l := by
  unfold jsTrim at hx
  rw [List.mem_reverse] at hx
  have h1 := (List.dropWhile_suffix _).subset hx
  rw [List.mem_reverse] at h1
  exact (List.dropWhile_suffix _).subset h1

theorem replaceFirst_of_pre (pat rep s : List Char) (h : pat.isPrefixOf s = true) :
    replaceFirst pat rep s = rep ++ s.drop pat.length := by
  cases s with
  | nil =>
    have : pat = [] := by
      cases pat with
      | nil => rfl
      | cons p ps => simp [List.isPrefixOf] at h
    subst this
    simp [replaceFirst]
  | cons c t => simp [replaceFirst, h]

theorem litYtPrefix_no_space : ∀ x ∈ litYtPrefix, jsIsSpace x = false := by decide

theorem litHttpsSlash_no_space : ∀ x ∈ litHttpsSlash, jsIsSpace x = false := by decide

theorem atStep_no_space {u : List Char} (h : ∀ x ∈ u, jsIsSpace x = false) :
    ∀ x ∈ atStep u, jsIsSpace x = false := by
  unfold atStep
  split_ifs
  · intro x hx
    rcases List.mem_append.mp hx with hx | hx
    · exact litYtPrefix_no_space x hx
    · exact h x hx
  · exact h

theorem httpUpgradeStep_no_space {u : List Char} (h : ∀ x ∈ u, jsIsSpace x = false) :
    ∀ x ∈ httpUpgradeStep u, jsIsSpace x = false := by
  unfold httpUpgradeStep
  split_ifs with hp
  · rw [replaceFirst_of_pre _ _ _ hp]
    intro x hx
    rcases List.mem_append.mp hx with hx | hx
    · exact litHttpsSlash_no_space x hx
    · exact h x (List.drop_subset _ _ hx)
  · exact h

theorem protoStep_no_space {u : List Char} (h : ∀ x ∈ u, jsIsSpace x = false) :
    ∀ x ∈ protoStep u, jsIsSpace x = false := by
  unfold protoStep
  split_ifs
  · exact h
  · intro x hx
    rcases List.mem_append.mp hx with hx | hx
    · exact litHttpsSlash_no_space x hx
    · exact h x hx

theorem notpre_https (t : List Char) :
    litHttpSlash.isPrefixOf (litHttpsSlash ++ t) = false := rfl

theorem protoStep_http_pre (u : List Char) : litHttp <+: protoStep u := by
  unfold protoStep
  split_ifs with h
  · exact List.isPrefixOf_iff_prefix.mp h
  · exact ⟨("s://".toList) ++ u, rfl⟩

theorem httpUpgradeStep_not_httpSlash (u : List Char) :
    litHttpSlash.isPrefixOf (httpUpgradeStep u) = false := by
  unfold httpUpgradeStep
  split_ifs with hp
  · rw [replaceFirst_of_pre _ _ _ hp]
    exact notpre_https _
  · exact Bool.eq_false_iff.mpr hp

theorem protoStep_not_httpSlash (u : List Char)
    (hu : litHttpSlash.isPrefixOf u = false) :
    litHttpSlash.isPrefixOf (protoStep u) = false := by
  unfold protoStep
  split_ifs with h
  · exact hu
  · exact notpre_https _

theorem normalize_idem_of_no_space (s : List Char)
    (hws : ∀ x ∈ s, jsIsSpace x = false) :
    normalizeChannelUrl (normalizeChannelUrl s) = normalizeChannelUrl s := by
  have hn3ws : ∀ x ∈ protoStep (httpUpgradeStep (atStep (jsTrim s))),
      jsIsSpace x = false :=
    protoStep_no_space (httpUpgradeStep_no_space (atStep_no_space (by
      rw [jsTrim_eq_self hws]; exact hws)))
  have hhttp3 := protoStep_http_pre (httpUpgradeStep (atStep (jsTrim s)))
  have hnot3 := protoStep_not_httpSlash (httpUpgradeStep (atStep (jsTrim s)))
    (httpUpgradeStep_not_httpSlash _)
  obtain ⟨t3, ht3⟩ := hhttp3
  have hn_split : normalizeChannelUrl s = litHttp ++ stripTrailingSlashes t3 := by
    rw [normalizeChannelUrl, ← ht3,
      stripTrailingSlashes_append litHttp t3 'p' rfl (by decide)]
  have hpre_n : normalizeChannelUrl s <+: protoStep (httpUpgradeStep (atStep (jsTrim s))) :=
    stripTrailingSlashes_pre _
  have hws_n : ∀ x ∈ normalizeChannelUrl s, jsIsSpace x = false := fun x hx =>
    hn3ws x (hpre_n.subset hx)
  have hhead_n : (normalizeChannelUrl s).head? = some 'h' := by rw [hn_split]; rfl
  have hhttp_n : litHttp.isPrefixOf (normalizeChannelUrl s) = true :=
    List.isPrefixOf_iff_prefix.mpr ⟨stripTrailingSlashes t3, hn_split.symm⟩
  have hnot_n : litHttpSlash.isPrefixOf (normalizeChannelUrl s) = false := by
    cases hb : litHttpSlash.isPrefixOf (normalizeChannelUrl s) with
    | false => rfl
    | true =>
      have h1 : litHttpSlash <+: normalizeChannelUrl s :=
        List.isPrefixOf_iff_prefix.mp hb
      have h2 := h1.trans hpre_n
      rw [← List.isPrefixOf_iff_prefix] at h2
      rw [hnot3] at h2
      cases h2
  have hstrip_n : stripTrailingSlashes (normalizeChannelUrl s) = normalizeChannelUrl s :=
    stripTrailingSlashes_idem _
  conv_lhs => rw [normalizeChannelUrl]
  rw [jsTrim_eq_self hws_n]
  have hat : atStep (normalizeChannelUrl s) = normalizeChannelUrl s := by
    unfold atStep
    rw [hhead_n]
    rfl
  rw [hat]
  have hup : httpUpgradeStep (normalizeChannelUrl s) = normalizeChannelUrl s := by
    unfold httpUpgradeStep
    rw [hnot_n]
    rfl
  rw [hup]
  have hproto : protoStep (normalizeChannelUrl s) = normalizeChannelUrl s := by
    unfold protoStep
    rw [hhttp_n]
    rfl
  rw [hproto, hstrip_n]

theorem wordDash_no_space {c : Char} (h : isWordDash c = true) : jsIsSpace c = false := by
  cases hs : jsIsSpace c with
  | false => rfl
  | true =>
    simp only [jsIsSpace, Bool.or_eq_true, decide_eq_true_eq] at hs
    rcases hs with ((((hs | hs) | hs) | hs) | hs) | hs <;> subst hs <;>
      exact absurd h (by decide)

theorem tailWordOk_no_space {t : List Char} (h : tailWordOk t = true) :
    ∀ x ∈ t, jsIsSpace x = false := by
  unfold tailWordOk at h
  intro x hx
  split_ifs at h with hl
  · obtain ⟨h1, h2⟩ := by rw [Bool.and_eq_true] at h; exact h
    have hne : t ≠ [] := by rintro rfl; cases hl
    have hsplit := List.dropLast_append_getLast hne
    rw [← hsplit] at hx
    rcases List.mem_append.mp hx with hx | hx
    · exact wordDash_no_space (List.all_eq_true.mp h2 x hx)
    · rcases List.mem_singleton.mp hx with rfl
      have := Option.some.inj ((List.getLast?_eq_getLast t hne).symm.trans hl)
      rw [this]
      decide
  · obtain ⟨h1, h2⟩ := by rw [Bool.and_eq_true] at h; exact h
    exact wordDash_no_space (List.all_eq_true.mp h2 x hx)

theorem ciPrefix_no_space : ∀ (ps : List (Char × Char)) (s r : List Char),
    ciPrefix ps s = some r →
    (∀ pr ∈ ps, jsIsSpace pr.1 = false ∧ jsIsSpace pr.2 = false) →
    (∀ x ∈ r, jsIsSpace x = false) → ∀ x ∈ s, jsIsSpace x = false := by
  intro ps
  induction ps with
  | nil =>
    intro s r hp _ hr
    simp only [ciPrefix, Option.some.injEq] at hp
    rw [hp]
    exact hr
  | cons pr ps ih =>
    intro s r hp hps hr
    obtain ⟨lo, up⟩ := pr
    cases s with
    | nil => simp [ciPrefix] at hp
    | cons c cs =>
      simp only [ciPrefix] at hp
      split_ifs at hp with hc
      · intro x hx
        rcases List.mem_cons.mp hx with hx | hx
        · subst hx
          rw [Bool.or_eq_true] at hc
          rcases hc with hc | hc
          · rw [decide_eq_true_eq] at hc
            rw [hc]
            exact (hps (lo, up) (by simp)).1
          · rw [decide_eq_true_eq] at hc
            rw [hc]
            exact (hps (lo, up) (by simp)).2
        · exact ih cs r hp (fun q hq => hps q (by simp [hq])) hr x hx

theorem matchProtocol_no_space {s r : List Char} (h : matchProtocol s = some r)
    (hr : ∀ x ∈ r, jsIsSpace x = false) : ∀ x ∈ s, jsIsSpace x = false := by
  unfold matchProtocol at h
  cases h1 : ciPrefix ciHttp s with
  | none => rw [h1] at h; cases h
  | some r1 =>
    rw [h1] at h
    dsimp only at h
    cases h2 : ciPrefix ciSColon r1 with
    | none =>
      rw [h2] at h
      exact ciPrefix_no_space ciHttp s r1 h1 (by decide)
        (ciPrefix_no_space ciColon r1 r h (by decide) hr)
    | some r2 =>
      rw [h2] at h
      simp only [Option.some.injEq] at h
      subst h
      exact ciPrefix_no_space ciHttp s r1 h1 (by decide)
        (ciPrefix_no_space ciSColon r1 r2 h2 (by decide) hr)

theorem matchHost_no_space {s r : List Char} (h : matchHost s = some r)
    (hr : ∀ x ∈ r, jsIsSpace x = false) : ∀ x ∈ s, jsIsSpace x = false := by
  unfold matchHost at h
  cases h1 : ciPrefix ciWww s with
  | none =>
    rw [h1] at h
    dsimp only [Option.getD] at h
    exact ciPrefix_no_space ciYtSlash s r h (by decide) hr
  | some w =>
    rw [h1] at h
    dsimp only [Option.getD] at h
    exact ciPrefix_no_space ciWww s w h1 (by decide)
      (ciPrefix_no_space ciYtSlash w r h (by decide) hr)

theorem valid_no_space {s : List Char} (h : validChannelUrlShape s = true) :
    ∀ x ∈ s, jsIsSpace x = false := by
  unfold validChannelUrlShape at h
  rw [Bool.or_eq_true] at h
  rcases h with hA | hB
  · cases hP : matchProtocol s with
    | none => rw [hP] at hA; cases hA
    | some r =>
      rw [hP] at hA
      dsimp only at hA
      cases hH : matchHost r with
      | none => rw [hH] at hA; cases hA
      | some rest =>
        rw [hH] at hA
        dsimp only at hA
        have hrest : ∀ x ∈ rest, jsIsSpace x = false := by
          rw [Bool.or_eq_true] at hA
          rcases hA with hA1 | hA1
          · rw [Bool.or_eq_true] at hA1
            rcases hA1 with hA2 | hA2
            · rw [Bool.or_eq_true] at hA2
              rcases hA2 with hA3 | hA3
              · cases hq : ciPrefix ciAt rest with
                | none => rw [hq] at hA3; cases hA3
                | some t =>
                  rw [hq] at hA3
                  exact ciPrefix_no_space ciAt rest t hq (by decide)
                    (tailWordOk_no_space hA3)
              · cases hq : ciPrefix ciChannelSlash rest with
                | none => rw [hq] at hA3; cases hA3
                | some t =>
                  rw [hq] at hA3
                  exact ciPrefix_no_space ciChannelSlash rest t hq (by decide)
                    (tailWordOk_no_space hA3)
            · cases hq : ciPrefix ciCSlash rest with
              | none => rw [hq] at hA2; cases hA2
              | some t =>
                rw [hq] at hA2
                exact ciPrefix_no_space ciCSlash rest t hq (by decide)
                  (tailWordOk_no_space hA2)
          · cases hq : ciPrefix ciUserSlash rest with
            | none => rw [hq] at hA1; cases hA1
            | some t =>
              rw [hq] at hA1
              exact ciPrefix_no_space ciUserSlash rest t hq (by decide)
                (tailWordOk_no_space hA1)
        exact matchProtocol_no_space hP (matchHost_no_space hH hrest)
  · rw [Bool.and_eq_true, Bool.and_eq_true] at hB
    obtain ⟨⟨h3, h4⟩, h2⟩ := hB
    rw [decide_eq_true_eq] at h3
    intro x hx
    cases s with
    | nil => cases hx
    | cons c t =>
      simp only [List.head?_cons, Option.some.injEq] at h3
      subst h3
      rcases List.mem_cons.mp hx with hx | hx
      · subst hx; decide
      · exact wordDash_no_space (List.all_eq_true.mp (by simpa using h2) x hx)

/-- C7: channel-URL canonicalization is idempotent on every string
accepted by the valid channel-URL shapes (`@handle` shorthand,
`/channel/ID`, `/c/name`, `/user/name`, `/@handle` full URLs), and the
shorthand `@SomeHandle` normalizes to
`https://www.youtube.com/@SomeHandle`. -/
theorem claim_C7_normalize_idempotent :
    (∀ s : List Char, validChannelUrlShape s = true →
      normalizeChannelUrl (normalizeChannelUrl s) = normalizeChannelUrl s) ∧
    normalizeChannelUrl ("@SomeHandle".toList) =
      ("https://www.youtube.com/@SomeHandle".toList) := by
  refine ⟨fun s hv => normalize_idem_of_no_space s (valid_no_space hv), by decide⟩

/-- Witness for C7 at a concrete full channel URL. -/
theorem claim_C7_witness :
    validChannelUrlShape ("https://www.youtube.com/@SomeHandle".toList) = true ∧
    normalizeChannelUrl
        (normalizeChannelUrl ("https://www.youtube.com/@SomeHandle".toList)) =
      normalizeChannelUrl ("https://www.youtube.com/@SomeHandle".toList) :=
  ⟨by decide, claim_C7_normalize_idempotent.1 _ (by decide)⟩

/-! ## CSV bulk import and deduplication (src/src/csvHandler.js) -/

/-- One entry pushed onto `channelUrls`. -/
structure ChannelEntry where
  url : List Char
  row : ℕ
  source : List Char
deriving DecidableEq

/-- `normalizeChannelUrl` of src/src/csvHandler.js (lines 82-97): ensure a
protocol, cut at `?`, strip trailing slashes, and throw on non-YouTube
URLs. -/
def csvNormalizeChannelUrl (url : List Char) : Except (List Char) (List Char) :=
  let u1 := if litHttp.isPrefixOf url then url else litHttpsSlash ++ url
  let u2 := stripTrailingSlashes (u1.takeWhile fun c => !(c = '?'))
  if jsIncludes litYtDomain u2 then .ok u2
  else .error ("Invalid YouTube URL: ".toList ++ u2)

/-- Is the head character a `[\w-]` character? -/
def headWordDash (w : List Char) : Bool :=
  match w.head? with
  | some c => isWordDash c
  | none => false

/-- The unanchored test `urlPatterns.some(pattern => pattern.test(value))`
with the four patterns `/youtube\.com\/(@|channel\/|c\/|user\/)[\w-]+/i`. -/
def csvUrlPatternTest (v : List Char) : Bool :=
  v.tails.any fun t =>
    match ciPrefix ciYtSlash t with
    | none => false
    | some rest =>
      (match ciPrefix ciAt rest with
       | some w => headWordDash w
       | none => false) ||
      (match ciPrefix ciChannelSlash rest with
       | some w => headWordDash w
       | none => false) ||
      (match ciPrefix ciCSlash rest with
       | some w => headWordDash w
       | none => false) ||
      (match ciPrefix ciUserSlash rest with
       | some w => headWordDash w
       | none => false)

/-- Processing of one cell value (the body of the inner `forEach`):
non-strings are skipped, URL-pattern matches are normalized (which can
throw), bare `@handles` without spaces are expanded. -/
def processValue (channelUrls : List ChannelEntry) (rowIdx : ℕ) (v : JSValue) :
    Except (List Char) (List ChannelEntry) :=
  match v with
  | .vStr sv =>
    if csvUrlPatternTest sv then
      match csvNormalizeChannelUrl sv with
      | .ok u => .ok (channelUrls ++ [⟨u, rowIdx, "csv".toList⟩])
      | .error e => .error e
    else if sv.head? = some '@' && !(jsIncludes [' '] sv) then
      .ok (channelUrls ++ [⟨litYtPrefix ++ sv, rowIdx, "csv".toList⟩])
    else .ok channelUrls
  | _ => .ok channelUrls

/-- The inner `forEach` over `Object.values(record)`. -/
def processValues (row : ℕ) : List JSValue → List ChannelEntry →
    Except (List Char) (List ChannelEntry)
  | [], acc => .ok acc
  | v :: vs, acc =>
    match processValue acc row v with
    | .ok acc2 => processValues row vs acc2
    | .error e => .error e

/-- The outer `records.forEach((record, index) => ...)`; the row number is
`index + 2` (header line plus 0-indexing). -/
def processRecordsFrom (idx : ℕ) : List (List JSValue) → List ChannelEntry →
    Except (List Char) (List ChannelEntry)
  | [], acc => .ok acc
  | rec :: rest, acc =>
    match processValues (idx + 2) rec acc with
    | .ok acc2 => processRecordsFrom (idx + 1) rest acc2
    | .error e => .error e

/-- `Array.from(new Map(channelUrls.map(item => [item.url, item])).values())`:
JS `Map.set` keeps the first-insertion position of a key but overwrites its
value, so each key appears once, in first-occurrence order, carrying the
LAST item with that key. -/
def jsMapDedup : List ChannelEntry → List ChannelEntry
  | [] => []
  | x :: xs =>
    ((((x :: xs).filter fun e => e.url = x.url).getLast?).getD x) ::
      jsMapDedup (xs.filter fun e => !(e.url = x.url))
termination_by l => l.length
decreasing_by
  simp only [List.length_cons]
  exact Nat.lt_succ_of_le (List.length_filter_le _ _)

/-- First-occurrence key order (the key order of a JS `Map`/`Set`): keep
the head, dedup the tail, drop later copies of the head. -/
def jsDedupKeys : List (List Char) → List (List Char)
  | [] => []
  | k :: ks => k :: (jsDedupKeys ks).filter fun x => !(x = k)

/-- `parseCSV` (src/src/csvHandler.js, lines 15-77) after the external
`csv-parse` step: extract entries from the records, dedup by URL, and
rethrow extraction errors as `CSV parsing failed`. -/
def parseCSVModel (records : List (List JSValue)) :
    Except (List Char) (List ChannelEntry) :=
  match processRecordsFrom 0 records [] with
  | .ok items => .ok (jsMapDedup items)
  | .error e => .error ("CSV parsing failed: ".toList ++ e)

theorem jsMapDedup_subset : ∀ (l : List ChannelEntry), ∀ e ∈ jsMapDedup l, e ∈ l := by
  intro l
  induction l using jsMapDedup.induct with
  | case1 => intro e he; rw [jsMapDedup] at he; cases he
  | case2 x xs ih =>
    intro e he
    rw [jsMapDedup] at he
    rcases List.mem_cons.mp he with he | he
    · rcases hg : ((x :: xs).filter fun e => e.url = x.url).getLast? with _ | y
      · rw [hg] at he; simp only [Option.getD] at he; rw [he]; simp
      · rw [hg] at he
        simp only [Option.getD] at he
        rw [he]
        exact List.mem_of_mem_filter (List.mem_of_mem_getLast? hg)
    · exact List.mem_cons_of_mem x (List.mem_of_mem_filter (ih e he))
theorem jsMapDedup_head_key (x : ChannelEntry) (xs : List ChannelEntry) :
    ((((x :: xs).filter fun e => e.url = x.url).getLast?).getD x).url = x.url := by
  rcases hg : ((x :: xs).filter fun e => e.url = x.url).getLast? with _ | y
  · rw [hg]; rfl
  · rw [hg]
    have hy := List.mem_of_mem_getLast? hg
    have h2 := (List.mem_filter.mp hy).2
    simp only [decide_eq_true_eq] at h2
    simpa [Option.getD] using h2

theorem map_url_filter (xs : List ChannelEntry) (k : List Char) :
    (xs.filter fun e => !(e.url = k)).map (fun e => e.url) =
      (xs.map fun e => e.url).filter fun u => !(u = k) := by
  induction xs with
  | nil => rfl
  | cons a t ih => by_cases h : a.url = k <;> simp [h, ih]

theorem jsDedupKeys_filter_comm (k : List Char) : ∀ l : List (List Char),
    jsDedupKeys (l.filter fun x => !(x = k)) =
      (jsDedupKeys l).filter fun x => !(x = k) := by
  intro l
  induction l with
  | nil => rfl
  | cons a t ih =>
    by_cases hak : a = k
    · subst hak
      rw [List.filter_cons_of_neg (by simp)]
      rw [ih]
      show _ = List.filter _ (a :: _)
      rw [List.filter_cons_of_neg (by simp)]
      rw [List.filter_filter]
      refine (List.filter_congr ?_).symm
      intro x hx
      cases hxa : decide (x = a) <;> simp [hxa]
    · rw [List.filter_cons_of_pos (by simp [hak])]
      show jsDedupKeys (a :: _) = _
      rw [jsDedupKeys, ih]
      show _ = List.filter _ (a :: _)
      rw [List.filter_cons_of_pos (by simp [hak])]
      rw [List.filter_filter, List.filter_filter]
      refine congrArg _ (List.filter_congr ?_)
      intro x hx
      cases h1 : decide (x = a) <;> cases h2 : decide (x = k) <;> simp [h1, h2]

theorem jsMapDedup_keys : ∀ l : List ChannelEntry,
    (jsMapDedup l).map (fun e => e.url) = jsDedupKeys (l.map fun e => e.url) := by
  intro l
  induction l using jsMapDedup.induct with
  | case1 => simp only [jsMapDedup, List.map_nil, jsDedupKeys]
  | case2 x xs ih =>
    rw [jsMapDedup]
    simp only [List.map_cons]
    rw [jsDedupKeys, jsMapDedup_head_key, ih, map_url_filter,
      jsDedupKeys_filter_comm]

theorem jsDedupKeys_subset : ∀ (ks : List (List Char)) (u : List Char),
    u ∈ jsDedupKeys ks → u ∈ ks := by
  intro ks
  induction ks with
  | nil => intro u hu; cases hu
  | cons k ks ih =>
    intro u hu
    rcases List.mem_cons.mp hu with hu | hu
    · rw [hu]; simp
    · exact List.mem_cons_of_mem k (ih u (List.mem_of_mem_filter hu))

theorem jsDedupKeys_nodup : ∀ ks : List (List Char), (jsDedupKeys ks).Nodup := by
  intro ks
  induction ks with
  | nil => exact List.nodup_nil
  | cons k ks ih =>
    refine List.nodup_cons.mpr ⟨?_, ih.filter _⟩
    intro hk
    have := (List.mem_filter.mp hk).2
    simp at this

theorem jsMapDedup_last : ∀ l : List ChannelEntry, ∀ e ∈ jsMapDedup l,
    (l.filter fun z => z.url = e.url).getLast? = some e := by
  intro l
  induction l using jsMapDedup.induct with
  | case1 => intro e he; rw [jsMapDedup] at he; cases he
  | case2 x xs ih =>
    intro e he
    rw [jsMapDedup] at he
    rcases List.mem_cons.mp he with he | he
    · have hurl : e.url = x.url := by rw [he]; exact jsMapDedup_head_key x xs
      simp only [hurl]
      rcases hg : ((x :: xs).filter fun z => z.url = x.url).getLast? with _ | y
      · exfalso
        have hxmem : x ∈ (x :: xs).filter fun z => z.url = x.url :=
          List.mem_filter.mpr ⟨by simp, by simp⟩
        rw [List.getLast?_eq_none_iff] at hg
        rw [hg] at hxmem
        cases hxmem
      · rw [hg] at he
        simp only [Option.getD] at he
        rw [hg, he]
    · have hmem := jsMapDedup_subset _ e he
      have hne : ¬(e.url = x.url) := by
        have h2 := (List.mem_filter.mp hmem).2
        simpa using h2
      have hstep := ih e he
      rw [List.filter_filter] at hstep
      have hfeq : (xs.filter fun z => z.url = e.url) =
          xs.filter (fun a => decide (a.url = e.url) && !decide (a.url = x.url)) := by
        refine List.filter_congr ?_
        intro z hz
        by_cases hez : z.url = e.url
        · have hzx : ¬(z.url = x.url) := by rw [hez]; exact hne
          simp [hez, hzx, hne]
        · simp [hez]
      rw [List.filter_cons_of_neg (by
        simp only [decide_eq_true_eq]
        exact fun h => hne h.symm)]
      rw [hfeq]
      exact hstep
instance {ε α : Type} [DecidableEq ε] [DecidableEq α] : DecidableEq (Except ε α) :=
  fun a b =>
  match a, b with
  | .ok x, .ok y =>
    if h : x = y then .isTrue (by rw [h]) else .isFalse fun hh => h (Except.ok.inj hh)
  | .error x, .error y =>
    if h : x = y then .isTrue (by rw [h])
    else .isFalse fun hh => h (Except.error.inj hh)
  | .ok x, .error y => .isFalse fun hh => Except.noConfusion hh
  | .error x, .ok y => .isFalse fun hh => Except.noConfusion hh

/-- C8 counterexample: two records normalizing to the same canonical URL
(rows 2 and 3).  The deduplicated output has a single entry at the first
occurrence's position, but it carries the provenance (`row := 3`) of the
LAST duplicate, not of the first occurrence (`row := 2`) as claimed: a JS
`Map.set` on an existing key keeps its position but overwrites its value. -/
theorem claim_C8_counterexample :
    parseCSVModel
        [[JSValue.vStr ("https://www.youtube.com/@abc/".toList)],
         [JSValue.vStr ("https://www.youtube.com/@abc".toList)]] =
      Except.ok [⟨"https://www.youtube.com/@abc".toList, 3, "csv".toList⟩] ∧
    processRecordsFrom 0
        [[JSValue.vStr ("https://www.youtube.com/@abc/".toList)],
         [JSValue.vStr ("https://www.youtube.com/@abc".toList)]] [] =
      Except.ok [⟨"https://www.youtube.com/@abc".toList, 2, "csv".toList⟩,
        ⟨"https://www.youtube.com/@abc".toList, 3, "csv".toList⟩] ∧
    (⟨"https://www.youtube.com/@abc".toList, 3, "csv".toList⟩ : ChannelEntry) ≠
      ⟨"https://www.youtube.com/@abc".toList, 2, "csv".toList⟩ := by
  have hp : processRecordsFrom 0
      [[JSValue.vStr ("https://www.youtube.com/@abc/".toList)],
       [JSValue.vStr ("https://www.youtube.com/@abc".toList)]] [] =
      Except.ok [⟨"https://www.youtube.com/@abc".toList, 2, "csv".toList⟩,
        ⟨"https://www.youtube.com/@abc".toList, 3, "csv".toList⟩] := by decide
  refine ⟨?_, hp, by decide⟩
  rw [parseCSVModel, hp]
  simp [jsMapDedup]

/-- C8 amended: when the bulk-import input contains duplicate canonical
URLs, the output has exactly one entry per URL (URL keys are pairwise
distinct), positioned in first-occurrence order, and each output entry is
the LAST pushed entry with that URL — i.e. the provenance of the last
duplicate wins, the first occurrence only fixes the position. -/
theorem claim_C8_dedup (records : List (List JSValue)) (items : List ChannelEntry)
    (h : processRecordsFrom 0 records [] = Except.ok items) :
    parseCSVModel records = Except.ok (jsMapDedup items) ∧
    ((jsMapDedup items).map fun e => e.url).Nodup ∧
    ((jsMapDedup items).map fun e => e.url) =
      jsDedupKeys (items.map fun e => e.url) ∧
    (∀ e ∈ jsMapDedup items, e ∈ items ∧
      (items.filter fun z => z.url = e.url).getLast? = some e) := by
  refine ⟨?_, ?_, jsMapDedup_keys items, fun e he =>
    ⟨jsMapDedup_subset items e he, jsMapDedup_last items e he⟩⟩
  · rw [parseCSVModel, h]
  · rw [jsMapDedup_keys]
    exact jsDedupKeys_nodup _

/-- Witness for C8 at the two-record duplicate input. -/
theorem claim_C8_witness :
    processRecordsFrom 0
        [[JSValue.vStr ("https://www.youtube.com/@abc/".toList)],
         [JSValue.vStr ("https://www.youtube.com/@abc".toList)]] [] =
      Except.ok [⟨"https://www.youtube.com/@abc".toList, 2, "csv".toList⟩,
        ⟨"https://www.youtube.com/@abc".toList, 3, "csv".toList⟩] ∧
    parseCSVModel
        [[JSValue.vStr ("https://www.youtube.com/@abc/".toList)],
         [JSValue.vStr ("https://www.youtube.com/@abc".toList)]] =
      Except.ok (jsMapDedup
        [⟨"https://www.youtube.com/@abc".toList, 2, "csv".toList⟩,
         ⟨"https://www.youtube.com/@abc".toList, 3, "csv".toList⟩]) :=
  ⟨by decide,
    (claim_C8_dedup _ _ (by decide)).1⟩

/-! ## Social URL categorization (src/src/handlePageFunction.js, lines 392-449) -/

/-- `utils.filterUrlsByDomain` (src/unnamed/part_007, lines 501-507). -/
def filterUrlsByDomain (urls : List (List Char)) (patterns : List (List Char)) :
    List (List Char) :=
  urls.filter fun u => patterns.any fun p => jsIncludes p u

/-- The categorized result object. -/
structure SocialUrls where
  youtubeUrls : List (List Char)
  instagramUrls : List (List Char)
  twitterUrls : List (List Char)
  facebookUrls : List (List Char)
  linkedinUrls : List (List Char)
  pinterestUrls : List (List Char)
  redditUrls : List (List Char)
  tumblrUrls : List (List Char)
  twitchUrls : List (List Char)
  onlyfansUrls : List (List Char)
  soundcloudUrls : List (List Char)
  discordUrls : List (List Char)
  patreonUrls : List (List Char)
  githubUrls : List (List Char)
  tiktokUrls : List (List Char)
  spotifyUrls : List (List Char)
  websiteUrls : List (List Char)

/-- All `SOCIAL_MEDIA_PATTERNS` entries except `WEBSITE`, flattened (for
Spotify, its `domains`), as iterated by the generic-website filter. -/
def allSocialPatterns : List (List Char) :=
  [("youtube.com".toList), ("instagram.com".toList), ("twitter.com".toList),
   ("x.com".toList), ("facebook.com".toList), ("fb.com".toList),
   ("linkedin.com".toList), ("pinterest.com".toList), ("reddit.com".toList),
   ("tumblr.com".toList), ("tiktok.com".toList), ("twitch.tv".toList),
   ("onlyfans.com".toList), ("spotify.com".toList), ("soundcloud.com".toList),
   ("discord.gg".toList), ("discord.com/invite".toList), ("patreon.com".toList),
   ("github.com".toList)]

/-- The `isSocial` test of the generic-website filter. -/
def isSocialUrl (u : List Char) : Bool := allSocialPatterns.any fun p => jsIncludes p u

/-- `categorizeSocialUrls`.  The external WHATWG `URL` API is abstracted:
`qParam u` models `new URL(u).searchParams.get('q')` combined with
`decodeURIComponent` (`none` where the code maps to `null`), and
`cleanUrlF` models `utils.cleanUrl`.  Everything else follows the source:
redirect extraction, direct-URL filtering, `Set` deduplication, one
independent substring filter per platform, and the generic-website filter
that excludes social matches and any `youtube.com` URL. -/
def categorizeSocialUrls (qParam : List Char → Option (List Char))
    (cleanUrlF : List Char → List Char) (allUrls : List (List Char)) : SocialUrls :=
  let redirectUrls := allUrls.filterMap qParam
  let directUrls := allUrls.filter fun u =>
    !(jsIncludes ("youtube.com/redirect".toList) u) &&
      !(jsIncludes ("youtube.com/@".toList) u)
  let uniqueUrls := jsDedupKeys (redirectUrls ++ directUrls)
  { youtubeUrls := filterUrlsByDomain uniqueUrls [("youtube.com".toList)]
    instagramUrls := filterUrlsByDomain uniqueUrls [("instagram.com".toList)]
    twitterUrls := filterUrlsByDomain uniqueUrls [("twitter.com".toList), ("x.com".toList)]
    facebookUrls := filterUrlsByDomain uniqueUrls [("facebook.com".toList), ("fb.com".toList)]
    linkedinUrls := filterUrlsByDomain uniqueUrls [("linkedin.com".toList)]
    pinterestUrls := filterUrlsByDomain uniqueUrls [("pinterest.com".toList)]
    redditUrls := filterUrlsByDomain uniqueUrls [("reddit.com".toList)]
    tumblrUrls := filterUrlsByDomain uniqueUrls [("tumblr.com".toList)]
    twitchUrls := filterUrlsByDomain uniqueUrls [("twitch.tv".toList)]
    onlyfansUrls := filterUrlsByDomain uniqueUrls [("onlyfans.com".toList)]
    soundcloudUrls := filterUrlsByDomain uniqueUrls [("soundcloud.com".toList)]
    discordUrls := filterUrlsByDomain uniqueUrls
      [("discord.gg".toList), ("discord.com/invite".toList)]
    patreonUrls := filterUrlsByDomain uniqueUrls [("patreon.com".toList)]
    githubUrls := filterUrlsByDomain uniqueUrls [("github.com".toList)]
    tiktokUrls := (filterUrlsByDomain uniqueUrls [("tiktok.com".toList)]).map cleanUrlF
    spotifyUrls := uniqueUrls.filter fun u =>
      ([("spotify.com".toList)].any fun d => jsIncludes d u) &&
        ([("user".toList), ("artist".toList)].any fun p => jsIncludes p u)
    websiteUrls := uniqueUrls.filter fun u =>
      !(isSocialUrl u) && !(jsIncludes ("youtube.com".toList) u) }

/-- C9 counterexample: a single URL whose text contains both
`instagram.com` and `twitter.com` lands in BOTH platform buckets — the
buckets are independent substring filters, there is no first-match-wins. -/
theorem claim_C9_counterexample :
    ("https://instagram.com/a-twitter.com".toList) ∈
      (categorizeSocialUrls (fun _ => none) id
        [("https://instagram.com/a-twitter.com".toList)]).instagramUrls ∧
    ("https://instagram.com/a-twitter.com".toList) ∈
      (categorizeSocialUrls (fun _ => none) id
        [("https://instagram.com/a-twitter.com".toList)]).twitterUrls := by
  refine ⟨by decide, by decide⟩

/-- C9 amended: a non-YouTube URL may appear in several platform buckets
(each bucket is an independent substring filter over the deduplicated URL
list), but no URL containing `youtube.com` — and no URL matching any
social pattern — ever appears in the generic-website bucket, for every
choice of URL-API oracle. -/
theorem claim_C9_website_excludes (qParam : List Char → Option (List Char))
    (cleanUrlF : List Char → List Char) (allUrls : List (List Char)) (u : List Char)
    (h : u ∈ (categorizeSocialUrls qParam cleanUrlF allUrls).websiteUrls) :
    jsIncludes ("youtube.com".toList) u = false ∧ isSocialUrl u = false := by
  have h2 := (List.mem_filter.mp h).2
  rw [Bool.and_eq_true] at h2
  obtain ⟨ha, hb⟩ := h2
  constructor
  · cases hx : jsIncludes ("youtube.com".toList) u with
    | false => rfl
    | true => rw [hx] at hb; cases hb
  · cases hx : isSocialUrl u with
    | false => rfl
    | true => rw [hx] at ha; cases ha

/-- Witness for C9 at a plain non-social URL. -/
theorem claim_C9_witness :
    ("https://example.org".toList) ∈
      (categorizeSocialUrls (fun _ => none) id
        [("https://example.org".toList)]).websiteUrls ∧
    jsIncludes ("youtube.com".toList) ("https://example.org".toList) = false ∧
    isSocialUrl ("https://example.org".toList) = false :=
  ⟨by decide,
    (claim_C9_website_excludes (fun _ => none) id
      [("https://example.org".toList)] _ (by decide)).1,
    (claim_C9_website_excludes (fun _ => none) id
      [("https://example.org".toList)] _ (by decide)).2⟩

end YT
